import Mathlib

/-!
# Dragon `operators/common/utils_op.cc`: Copy, Accuracy, OneHot

A shallow embedding of the three operators of `utils_op.cc`.

Modelling conventions.
* A `float` value is a rational number; `round32` is the float32 rounding of a
  rational (round to nearest, ties to even).  The result of a division is an
  `Option ℚ`; `none` is the non-finite result (NaN or an infinity) of dividing
  by zero.
* The kernel of Accuracy is embedded twice.  `AccuracyOp.RunWithType` reads the
  counters `acc`, `count` and the quotients over exact arithmetic: it agrees
  with the float32 run on the counters up to `2 ^ 24` positions and on the
  quotients up to rounding.  `AccuracyOp.RunWithType_float` rounds every
  increment and quotient to float32 and is undefined where the C++ is.
* `int`, `TIndex` counters and sizes are natural numbers or integers without
  overflow.
* A data pointer is a function from the flat index to the element.
-/

namespace dragon

set_option synthInstance.maxSize 1024

/-! ## Values -/

/-- Conversion `const int v = x` of a float to an `int`: truncation toward zero. -/
def toInt (x : ℚ) : Int := Int.tdiv x.num (x.den : Int)

/-- Division `a / b` of type `T` over exact arithmetic, without the rounding of
`float_div`: a zero divisor gives NaN or an infinity (`none`). -/
def fdiv (a b : ℚ) : Option ℚ := if b = 0 then none else some (a / b)

/-- The order `operator<` of `std::pair<T, int>`: lexicographic. -/
def pairLt (a b : ℚ × Int) : Prop := a.1 < b.1 ∨ (¬ b.1 < a.1 ∧ a.2 < b.2)

instance (a b : ℚ × Int) : Decidable (pairLt a b) := by
  unfold pairLt; infer_instance

/-- The comparator `std::greater<pair<T, int> >()`: `greater a b` is `a > b`. -/
def greater (a b : ℚ × Int) : Bool := decide (pairLt b a)

/-- Insertion of one element into a list that is in `greater` order. -/
def insertGreater (a : ℚ × Int) : List (ℚ × Int) → List (ℚ × Int)
  | [] => [a]
  | b :: l => if greater a b then a :: b :: l else b :: insertGreater a l

/-- The whole range in `greater` order (greatest first). -/
def sortGreater : List (ℚ × Int) → List (ℚ × Int)
  | [] => []
  | a :: l => insertGreater a (sortGreater l)

/-- `std::partial_sort(vec.begin(), vec.begin() + middle, vec.end(), greater)`
(C++ standard library): afterwards the first `middle` elements are the `middle`
first elements of the range in `greater` order, in that order.  The standard
leaves the order of the other elements open; here they follow in `greater`
order too, and `RunWithType` reads none of them.  For `middle` past the end of
`vec` the C++ is undefined; the function then returns the sorted range. -/
def partial_sort (vec : List (ℚ × Int)) (middle : Nat) : List (ℚ × Int) :=
  (sortGreater vec).take middle ++ (sortGreater vec).drop middle

/-! ## float32 arithmetic -/

/-- The number of halvings that bring `n` below 2, at most `fuel` of them. -/
def log2Fuel : Nat → Nat → Nat
  | 0, _ => 0
  | fuel + 1, n => if n < 2 then 0 else log2Fuel fuel (n / 2) + 1

/-- The integer part of the binary logarithm of `n > 0`. -/
def natLog2 (n : Nat) : Nat := log2Fuel n n

/-- The integer part of the binary logarithm of a rational `q > 0`: the
difference of the logarithms of numerator and denominator, or one less. -/
def floorLog2 (q : ℚ) : Int :=
  let e0 : Int := (natLog2 q.num.natAbs : Int) - (natLog2 q.den : Int)
  if (2 : ℚ) ^ e0 ≤ q then e0 else e0 - 1

/-- The integer nearest to `x`, the even one of the two at a tie. -/
def roundHalfEven (x : ℚ) : Int :=
  if x - (⌊x⌋ : ℚ) < 1 / 2 then ⌊x⌋
  else if 1 / 2 < x - (⌊x⌋ : ℚ) then ⌊x⌋ + 1
  else if ⌊x⌋ % 2 = 0 then ⌊x⌋ else ⌊x⌋ + 1

/-- The exponent `e` of the spacing `2 ^ e` of the float32 values around
`q ≠ 0`: 24 significant bits, and no spacing below `2 ^ (-149)`. -/
def ulpExp (q : ℚ) : Int := max (-149) (floorLog2 |q| - 23)

/-- The float32 value nearest to `q` (IEEE 754 binary32, round to nearest, ties
to even).  Overflow to an infinity, from `2 ^ 128` on, is left out: what the
operators round are counters, quotients of counters and `int` values. -/
def round32 (q : ℚ) : ℚ :=
  if q = 0 then 0
  else (roundHalfEven (q / (2 : ℚ) ^ ulpExp q) : ℚ) * (2 : ℚ) ^ ulpExp q

/-- `x++` on a `float`: the float32 value of `x + 1`. -/
def float_incr (x : ℚ) : ℚ := round32 (x + 1)

/-- `a / b` on `float`: the float32 value of the quotient; a zero divisor
gives NaN or an infinity (`none`). -/
def float_div (a b : ℚ) : Option ℚ := if b = 0 then none else some (round32 (a / b))

/-! ## Tensors -/

/-- Modelled from the spec: the element type tag of a buffer (`TypeMeta`,
declared outside `utils_op.cc`): "enumerated: float32, float16, int32, …". -/
inductive TypeMeta where
  | float32
  | float16
  | int32
  deriving DecidableEq, Repr

/-- Modelled from the spec: the `Tensor` class (declared outside `utils_op.cc`):
a shape, an element type tag and the elements by flat index. -/
structure Tensor where
  dims : List Nat
  type_meta : TypeMeta
  data : Nat → ℚ

/-- Modelled from the spec: `Tensor::count(start)`, the product of the
dimensions from axis `start` onward. -/
def Tensor.countFrom (t : Tensor) (start : Nat) : Nat := (t.dims.drop start).prod

/-- Modelled from the spec: `Tensor::count()`, the number of elements. -/
def Tensor.count (t : Tensor) : Nat := t.countFrom 0

/-- Modelled from the spec: `Tensor::dim(i)`. -/
def Tensor.dim (t : Tensor) (i : Nat) : Nat := t.dims.getD i 0

/-- Modelled from the spec: `Tensor::IsType<T>()`. -/
def Tensor.IsType (t : Tensor) (ty : TypeMeta) : Bool := decide (t.type_meta = ty)

/-- Modelled from the spec: `Tensor::Reshape(dims)` assigns the shape. -/
def Tensor.Reshape (t : Tensor) (dims : List Nat) : Tensor := { t with dims := dims }

/-- Modelled from the spec: `Tensor::ReshapeLike(other)`. -/
def Tensor.ReshapeLike (t other : Tensor) : Tensor := t.Reshape other.dims

/-- Modelled from the spec: `math::Set(n, alpha, y)` ("fill(count, value,
buffer)"): the first `n` elements of `y` become `alpha`. -/
def math.Set (n : Nat) (alpha : ℚ) (y : Nat → ℚ) : Nat → ℚ :=
  fun i => if i < n then alpha else y i

/-! ## Copy -/

/-- The fatal conditions of `utils_op.cc`: `LOG(FATAL) << "unsupported input
types."` and the failed `CHECK_EQ` of `AccuracyOp::RunOnDevice`, whose message
carries `outer_num`, `inner_num` and the label count. -/
inductive Fatal where
  | unsupportedInputTypes
  | labelCount (outer_num inner_num labels : Nat)
  deriving DecidableEq, Repr

/-- Modelled from the spec: `Context::Copy<T>(n, dst, src)` (declared outside
`utils_op.cc`; "copy(count, dst, src)"): the first `n` elements of `dst` become
those of `src`. -/
def Context.Copy (n : Nat) (dst src : Nat → ℚ) : Nat → ℚ :=
  fun i => if i < n then src i else dst i

/-- `CopyOp<Context>::RunWithType<T>()`, lines 8-13: `X` is `input(0)`, `Y` is
`output(0)`; the result is `output(0)` after the call. -/
def CopyOp.RunWithType (X Y : Tensor) : Tensor :=
  { Y with data := Context.Copy Y.count Y.data X.data }

/-- `CopyOp<Context>::RunOnDevice()`, lines 15-21. -/
def CopyOp.RunOnDevice (X Y : Tensor) : Except Fatal Tensor :=
  let Y1 := Y.ReshapeLike X
  if X.IsType TypeMeta.float32 then Except.ok (CopyOp.RunWithType X Y1)
  else if X.IsType TypeMeta.float16 then Except.ok (CopyOp.RunWithType X Y1)
  else Except.error Fatal.unsupportedInputTypes

/-! ## OneHot -/

/-- The members of `OneHotOp`. -/
structure OneHotOp where
  depth : Nat
  on_value : Int
  off_value : Int

/-- Modelled from the spec: `kernel::OneHot(count, depth, on_value, x, y)`
(declared in `utils/op_kernel.h`, outside `utils_op.cc`): "for every input
element at flattened position `p` with value `v`, set the output element at
the corresponding expanded position for class `v` to `on_value`", the expanded
position being `p * depth + v`; the `int` `on_value` is stored as a `float`. -/
def kernel.OneHot (count depth : Nat) (on_value : Int) (x y : Nat → ℚ) : Nat → ℚ :=
  (List.range count).foldl
    (fun (y : Nat → ℚ) (p : Nat) => fun (idx : Nat) =>
      if (idx : Int) = (p : Int) * (depth : Int) + toInt (x p) then round32 (on_value : ℚ)
      else y idx)
    y

/-- `OneHotOp<Context>::RunWithType<T>()`, lines 97-106, with `T = float`: `X`
is `input(0)`, `Y` is `output(0)`; the result is `output(0)` after the call.
The fill value is `float(off_value)`, the float32 value of the `int`. -/
def OneHotOp.RunWithType (op : OneHotOp) (X Y : Tensor) : Tensor :=
  let Ydata := math.Set Y.count (round32 (op.off_value : ℚ)) Y.data
  { Y with data := kernel.OneHot X.count op.depth op.on_value X.data Ydata }

/-- Lines 110-112 of `OneHotOp<Context>::RunOnDevice()`: `output(0)` reshaped to
the dimensions of `input(0)` followed by `depth`. -/
def OneHotOp.reshapeOutput (op : OneHotOp) (X Y : Tensor) : Tensor :=
  Y.Reshape (X.dims ++ [op.depth])

/-- `OneHotOp<Context>::RunOnDevice()`, lines 108-116. -/
def OneHotOp.RunOnDevice (op : OneHotOp) (X Y : Tensor) : Except Fatal Tensor :=
  let Y1 := op.reshapeOutput X Y
  if X.IsType TypeMeta.float32 then Except.ok (op.RunWithType X Y1)
  else Except.error Fatal.unsupportedInputTypes

/-! ## Accuracy -/

/-- The members of `AccuracyOp` that `RunWithType` reads. -/
structure AccuracyOp where
  top_k : Nat
  ignore_labels : List Int
  outer_num : Nat
  inner_num : Nat
  classes : Nat

/-- The variables that the loops of `AccuracyOp::RunWithType` update:
`acc`, `count`, `num_per_class` and the data of `output(1)`.  `acc` and `count`
are of type `T`; `loops` increments them exactly, `loops_float` in float32. -/
structure AccState where
  acc : ℚ
  count : ℚ
  num_per_class : Int → Int
  acc_per_class : Nat → ℚ

/-- `num_per_class[label]++` on the `Map<int, int>` (an absent key reads 0). -/
def mapIncr (m : Int → Int) (label : Int) : Int → Int :=
  fun c => if c = label then m c + 1 else m c

/-- `data[label]++` on the data of `output(1)`. -/
def dataIncr (y : Nat → ℚ) (label : Int) : Nat → ℚ :=
  fun c => if c = label.toNat then y c + 1 else y c

/-- Lines 47-48: `for (k...) if (label == ignores[k]) continue;`.  The
`continue` belongs to this loop over `k`, so either branch of the test goes on
to the next `k` with the state as it is. -/
def ignoreLoop (ignores : List Int) (label : Int) (st : AccState) : AccState :=
  ignores.foldl (fun s ig => if label = ig then s else s) st

/-- Lines 50-52: the pairs `(Xdata[i * dim + k * inner_num + j], k)`, `k < classes`. -/
def scoreVec (op : AccuracyOp) (Xdata : Nat → ℚ) (dim i j : Nat) : List (ℚ × Int) :=
  (List.range op.classes).map
    (fun k => (Xdata (i * dim + k * op.inner_num + j), (k : Int)))

/-- Lines 54-61: the scan of `vec[0 .. top_k)` (given as a list); the first entry
whose class is `label` increments the counters and leaves the loop. -/
def topkLoop (label : Int) (outputSize : Nat) : List (ℚ × Int) → AccState → AccState
  | [], st => st
  | p :: rest, st =>
    if p.2 = label then
      { st with
        acc_per_class :=
          if outputSize > 1 then dataIncr st.acc_per_class label else st.acc_per_class
        acc := st.acc + 1 }
    else topkLoop label outputSize rest st

/-- Lines 46-62: the body of the loop over `j`, at position `(i, j)`. -/
def position (op : AccuracyOp) (outputSize : Nat) (Xdata labels : Nat → ℚ)
    (dim i j : Nat) (st : AccState) : AccState :=
  let label := toInt (labels (i * op.inner_num + j))
  let st1 := ignoreLoop op.ignore_labels label st
  let st2 :=
    if outputSize > 1 then { st1 with num_per_class := mapIncr st1.num_per_class label }
    else st1
  let vec := partial_sort (scoreVec op Xdata dim i j) op.top_k
  let st3 := topkLoop label outputSize (vec.take op.top_k) st2
  { st3 with count := st3.count + 1 }

/-- Lines 45-63: the loop over `j`. -/
def innerLoop (op : AccuracyOp) (outputSize : Nat) (Xdata labels : Nat → ℚ)
    (dim i : Nat) (st : AccState) : AccState :=
  (List.range op.inner_num).foldl (fun s j => position op outputSize Xdata labels dim i j s) st

/-- Lines 32-64 over exact arithmetic: the state when the loop over `i` ends.
`Y1` is the data of `output(1)` before the call.  Line 43 divides by
`outer_num`; at `outer_num = 0`, where the C++ is undefined, `dim` is 0 here
and no position is visited. -/
def loops (op : AccuracyOp) (outputSize : Nat) (X L : Tensor) (Y1 : Nat → ℚ) : AccState :=
  let y1 := if outputSize > 1 then math.Set op.classes 0 Y1 else Y1
  let dim := X.count / op.outer_num
  (List.range op.outer_num).foldl
    (fun s i => innerLoop op outputSize X.data L.data dim i s)
    { acc := 0, count := 0, num_per_class := fun _ => 0, acc_per_class := y1 }

/-- What `AccuracyOp::RunWithType` leaves in its outputs: element 0 of
`output(0)` and the data of `output(1)`. -/
structure AccuracyOutputs where
  output0 : Option ℚ
  output1 : Nat → Option ℚ

/-- `AccuracyOp<Context>::RunWithType<T>()`, lines 30-72, over exact arithmetic.
`outputSize` is `OutputSize()`, `X` is `input(0)`, `L` is `input(1)`, `Y1` the
data of `output(1)` before the call (not touched when `OutputSize() <= 1`). -/
def AccuracyOp.RunWithType (op : AccuracyOp) (outputSize : Nat) (X L : Tensor)
    (Y1 : Nat → ℚ) : AccuracyOutputs :=
  let st := loops op outputSize X L Y1
  { output0 := fdiv st.acc st.count
    output1 := fun i =>
      if outputSize > 1 ∧ i < op.classes then
        (if st.num_per_class (i : Int) = 0 then some 0
         else fdiv (st.acc_per_class i) (st.acc_per_class i))
      else some (st.acc_per_class i) }

/-! ## Accuracy with `T = float`

Line 85 runs `RunWithType<float>`.  Above, `acc++`, `count++` and the quotients
are read over exact arithmetic; here they are float32 operations. -/

/-- `data[label]++` on the `float` data of `output(1)`. -/
def dataIncr_float (y : Nat → ℚ) (label : Int) : Nat → ℚ :=
  fun c => if c = label.toNat then float_incr (y c) else y c

/-- Lines 54-61 with `T = float`: the scan of `vec[0 .. top_k)`. -/
def topkLoop_float (label : Int) (outputSize : Nat) :
    List (ℚ × Int) → AccState → AccState
  | [], st => st
  | p :: rest, st =>
    if p.2 = label then
      { st with
        acc_per_class :=
          if outputSize > 1 then dataIncr_float st.acc_per_class label
          else st.acc_per_class
        acc := float_incr st.acc }
    else topkLoop_float label outputSize rest st

/-- Lines 46-62 with `T = float`: the body of the loop over `j`. -/
def position_float (op : AccuracyOp) (outputSize : Nat) (Xdata labels : Nat → ℚ)
    (dim i j : Nat) (st : AccState) : AccState :=
  let label := toInt (labels (i * op.inner_num + j))
  let st1 := ignoreLoop op.ignore_labels label st
  let st2 :=
    if outputSize > 1 then { st1 with num_per_class := mapIncr st1.num_per_class label }
    else st1
  let vec := partial_sort (scoreVec op Xdata dim i j) op.top_k
  let st3 := topkLoop_float label outputSize (vec.take op.top_k) st2
  { st3 with count := float_incr st3.count }

/-- Lines 45-63 with `T = float`: the loop over `j`. -/
def innerLoop_float (op : AccuracyOp) (outputSize : Nat) (Xdata labels : Nat → ℚ)
    (dim i : Nat) (st : AccState) : AccState :=
  (List.range op.inner_num).foldl
    (fun s j => position_float op outputSize Xdata labels dim i j s) st

/-- Lines 32-64 with `T = float`: the state when the loop over `i` ends. -/
def loops_float (op : AccuracyOp) (outputSize : Nat) (X L : Tensor) (Y1 : Nat → ℚ) :
    AccState :=
  let y1 := if outputSize > 1 then math.Set op.classes 0 Y1 else Y1
  let dim := X.count / op.outer_num
  (List.range op.outer_num).foldl
    (fun s i => innerLoop_float op outputSize X.data L.data dim i s)
    { acc := 0, count := 0, num_per_class := fun _ => 0, acc_per_class := y1 }

/-- `AccuracyOp<Context>::RunWithType<float>()`, lines 30-72.  The run is
undefined (`none`) when `outer_num` is 0, the divisor of line 43, and when a
position exists and `top_k > classes`, where line 53 forms `vec.begin() + top_k`
past the end of `vec`. -/
def AccuracyOp.RunWithType_float (op : AccuracyOp) (outputSize : Nat) (X L : Tensor)
    (Y1 : Nat → ℚ) : Option AccuracyOutputs :=
  if op.outer_num = 0 then none
  else if op.classes < op.top_k ∧ 0 < op.inner_num then none
  else
    let st := loops_float op outputSize X L Y1
    some
      { output0 := float_div st.acc st.count
        output1 := fun i =>
          if outputSize > 1 ∧ i < op.classes then
            (if st.num_per_class (i : Int) = 0 then some 0
             else float_div (st.acc_per_class i) (st.acc_per_class i))
          else some (st.acc_per_class i) }

/-! ## Specification-level notions for Accuracy -/

/-- The number of entries of `vec` that are greater than `p` in the pair order. -/
def rank (vec : List (ℚ × Int)) (p : ℚ × Int) : Nat :=
  vec.countP (fun q => greater q p)

/-- The entry `p` is one of the `k` greatest entries of `vec`: it occurs in `vec`
and fewer than `k` entries are greater. -/
def isTopK (vec : List (ℚ × Int)) (k : Nat) (p : ℚ × Int) : Prop :=
  p ∈ vec ∧ rank vec p < k

instance (vec : List (ℚ × Int)) (k : Nat) (p : ℚ × Int) : Decidable (isTopK vec k p) := by
  unfold isTopK; infer_instance

/-- The label at `(i, j)`: `labels[i * inner_num + j]` as an `int`. -/
def labelAt (op : AccuracyOp) (L : Tensor) (i j : Nat) : Int :=
  toInt (L.data (i * op.inner_num + j))

/-- The label at `(i, j)` is the class index of one of the `top_k` greatest
pairs `(predictions[i * dim + k * inner_num + j], k)`, `k < classes`, with
`dim = count / outer_num`. -/
def labelInTopK (op : AccuracyOp) (X L : Tensor) (i j : Nat) : Bool :=
  (scoreVec op X.data (X.count / op.outer_num) i j).any
    (fun p => decide (isTopK (scoreVec op X.data (X.count / op.outer_num) i j) op.top_k p)
      && decide (p.2 = labelAt op L i j))

/-- The number of positions `(i, j)`, `i < outer_num`, `j < inner_num`, that
satisfy `good`. -/
def countPositions (op : AccuracyOp) (good : Nat → Nat → Bool) : Nat :=
  ((List.range op.outer_num).map
    (fun i => (List.range op.inner_num).countP (fun j => good i j))).sum

/-- A list in `greater` order: no entry is smaller than a later one. -/
def Descending (l : List (ℚ × Int)) : Prop := l.Pairwise (fun a b => ¬ pairLt a b)

/-- The scan of lines 54-61 at `(i, j)` meets an entry whose class is the label. -/
def hit (op : AccuracyOp) (Xdata labels : Nat → ℚ) (dim i j : Nat) : Bool :=
  ((partial_sort (scoreVec op Xdata dim i j) op.top_k).take op.top_k).any
    (fun p => decide (p.2 = toInt (labels (i * op.inner_num + j))))

/-- The score of class `k` at position `(i, j)`:
`predictions[i * dim + k * inner_num + j]` with `dim = count / outer_num`. -/
def score (op : AccuracyOp) (X : Tensor) (i k j : Nat) : ℚ :=
  X.data (i * (X.count / op.outer_num) + k * op.inner_num + j)

/-! ## Accuracy: `RunOnDevice` -/

/-- Lines 76-78 of `AccuracyOp<Context>::RunOnDevice()`: `outer_num`,
`inner_num` and `classes` read off the shape of `input(0)`. -/
def AccuracyOp.inferShape (op : AccuracyOp) (X : Tensor) : AccuracyOp :=
  { op with outer_num := X.dim 0, inner_num := X.countFrom 2, classes := X.dim 1 }

/-- What a run of `AccuracyOp::RunOnDevice` that returns leaves behind: the
members of the operator, the shape of `output(0)`, the shape of `output(1)`
when there is a second output, and the values written by `RunWithType`. -/
structure AccuracyRun where
  op : AccuracyOp
  dims0 : List Nat
  dims1 : Option (List Nat)
  outputs : AccuracyOutputs

/-- `AccuracyOp<Context>::RunOnDevice()`, lines 74-87.  `outputSize` is
`OutputSize()`, `X` is `input(0)`, `L` is `input(1)`, `Y1` the data of
`output(1)` before the call.  The kernel it reaches is taken over exact
arithmetic (`RunWithType`); `RunWithType_float` is the same kernel in float32. -/
def AccuracyOp.RunOnDevice (op : AccuracyOp) (outputSize : Nat) (X L : Tensor)
    (Y1 : Nat → ℚ) : Except Fatal AccuracyRun :=
  let op1 := op.inferShape X
  if op1.outer_num * op1.inner_num ≠ L.count then
    Except.error (Fatal.labelCount op1.outer_num op1.inner_num L.count)
  else
    let dims0 := List.replicate 1 1
    let dims1 := if outputSize > 1 then some (List.replicate 1 op1.classes) else none
    if X.IsType TypeMeta.float32 then
      Except.ok
        { op := op1, dims0 := dims0, dims1 := dims1
          outputs := op1.RunWithType outputSize X L Y1 }
    else Except.error Fatal.unsupportedInputTypes

/-- The shapes of `output(0)` and of `output(1)` (when there is one) at the
point where `AccuracyOp<Context>::RunOnDevice()` stops, by returning or by a
fatal error; `dims0` and `dims1` are the shapes before the call.  A failed
`CHECK_EQ` (lines 79-81) stops before the reshapes of lines 82-83; the type
dispatch of lines 85-86 comes after them and changes no shape. -/
def AccuracyOp.outputShapes (op : AccuracyOp) (outputSize : Nat) (X L : Tensor)
    (dims0 : List Nat) (dims1 : Option (List Nat)) : List Nat × Option (List Nat) :=
  let op1 := op.inferShape X
  if op1.outer_num * op1.inner_num ≠ L.count then (dims0, dims1)
  else
    (List.replicate 1 1,
      if outputSize > 1 then some (List.replicate 1 op1.classes) else dims1)

/-- The flat index of the score of class `k` at `(i, j)`, line 52:
`i * dim + k * inner_num + j` with `dim = input(0).count() / outer_num`. -/
def predIndex (op : AccuracyOp) (X : Tensor) (i k j : Nat) : Nat :=
  i * (X.count / op.outer_num) + k * op.inner_num + j

/-- The flat index of the label at `(i, j)`, line 46: `i * inner_num + j`. -/
def labelIndex (op : AccuracyOp) (i j : Nat) : Nat := i * op.inner_num + j

/-! ## Operator schemas -/

/-- Modelled from the spec: the schema entry of an operator (`OpSchema`,
declared outside `utils_op.cc`): "(min inputs, max inputs, min outputs, max
outputs)". -/
structure OpSchema where
  min_input : Nat
  max_input : Nat
  min_output : Nat
  max_output : Nat

/-- Modelled from the spec: `OpSchema::NumInputs(n)`, exactly `n` inputs. -/
def OpSchema.NumInputs (s : OpSchema) (n : Nat) : OpSchema :=
  { s with min_input := n, max_input := n }

/-- Modelled from the spec: `OpSchema::NumOutputs(n)`, exactly `n` outputs. -/
def OpSchema.NumOutputs (s : OpSchema) (n : Nat) : OpSchema :=
  { s with min_output := n, max_output := n }

/-- Modelled from the spec: `OpSchema::NumOutputs(min, max)`, between `min` and
`max` outputs. -/
def OpSchema.NumOutputsMinMax (s : OpSchema) (min_num max_num : Nat) : OpSchema :=
  { s with min_output := min_num, max_output := max_num }

/-- Modelled from the spec: the arity check of a node with `nInputs` inputs and
`nOutputs` outputs against the schema of its operator. -/
def OpSchema.Verify (s : OpSchema) (nInputs nOutputs : Nat) : Bool :=
  decide (s.min_input ≤ nInputs ∧ nInputs ≤ s.max_input ∧
    s.min_output ≤ nOutputs ∧ nOutputs ≤ s.max_output)

/-- Line 27: `OPERATOR_SCHEMA(Copy).NumInputs(1).NumOutputs(1)`; `base` is the
schema entry as `OPERATOR_SCHEMA` creates it. -/
def schemaCopy (base : OpSchema) : OpSchema := (base.NumInputs 1).NumOutputs 1

/-- Line 93: `OPERATOR_SCHEMA(Accuracy).NumInputs(2).NumOutputs(1, 2)`. -/
def schemaAccuracy (base : OpSchema) : OpSchema :=
  (base.NumInputs 2).NumOutputsMinMax 1 2

/-- Line 122: `OPERATOR_SCHEMA(OneHot).NumInputs(1).NumOutputs(1)`. -/
def schemaOneHot (base : OpSchema) : OpSchema := (base.NumInputs 1).NumOutputs 1

/-! ## Concrete inputs -/

/-- A buffer with the given shape and elements (elements past the end read 0). -/
def mkTensor (dims : List Nat) (elems : List ℚ) : Tensor :=
  { dims := dims, type_meta := TypeMeta.float32, data := fun n => elems.getD n 0 }

/-- The example of the specification: `outer_num = 2`, `inner_num = 1`,
`classes = 3`, `top_k = 1`. -/
def specOp : AccuracyOp :=
  { top_k := 1, ignore_labels := [], outer_num := 2, inner_num := 1, classes := 3 }

/-- Predictions `[[0.1, 0.7, 0.2], [0.9, 0.05, 0.05]]`. -/
def specX : Tensor := mkTensor [2, 3] [1/10, 7/10, 2/10, 9/10, 1/20, 1/20]

/-- Labels `[1, 0]`. -/
def specL : Tensor := mkTensor [2] [1, 0]

/-- Two examples over two classes, `top_k = 1`, label 1 in `ignore_labels`. -/
def ignoreOp : AccuracyOp :=
  { top_k := 1, ignore_labels := [1], outer_num := 2, inner_num := 1, classes := 2 }

/-- Predictions `[[0.9, 0.1], [0.9, 0.1]]`. -/
def ignoreX : Tensor := mkTensor [2, 2] [9/10, 1/10, 9/10, 1/10]

/-- Labels `[0, 1]`. -/
def ignoreL : Tensor := mkTensor [2] [0, 1]

/-- The positions of `ignoreX`, `ignoreL` whose label is not 1: one example,
nothing ignored. -/
def keptOp : AccuracyOp :=
  { top_k := 1, ignore_labels := [], outer_num := 1, inner_num := 1, classes := 2 }

/-- Predictions `[[0.9, 0.1]]`. -/
def keptX : Tensor := mkTensor [1, 2] [9/10, 1/10]

/-- Labels `[0]`. -/
def keptL : Tensor := mkTensor [1] [0]

/-- Two examples over two classes, `top_k = 1`, nothing ignored. -/
def perClassOp : AccuracyOp :=
  { top_k := 1, ignore_labels := [], outer_num := 2, inner_num := 1, classes := 2 }

/-- Predictions `[[0.9, 0.1], [0.1, 0.9]]`. -/
def perClassX : Tensor := mkTensor [2, 2] [9/10, 1/10, 1/10, 9/10]

/-- Labels `[0, 0]`: class 0 twice, once with the greatest score. -/
def perClassL : Tensor := mkTensor [2] [0, 0]

/-- Labels `[1, 0]`: each class once, never with the greatest score. -/
def perClassMissL : Tensor := mkTensor [2] [1, 0]

/-- One example over two classes, `top_k = 1`, label 0 in `ignore_labels`. -/
def allIgnoredOp : AccuracyOp :=
  { top_k := 1, ignore_labels := [0], outer_num := 1, inner_num := 1, classes := 2 }

/-- Two examples over three classes with distinct scores, `top_k = 2`. -/
def relabelOp : AccuracyOp :=
  { top_k := 2, ignore_labels := [], outer_num := 2, inner_num := 1, classes := 3 }

/-- Predictions `[[0.1, 0.7, 0.2], [0.9, 0.05, 0.03]]`. -/
def relabelX : Tensor := mkTensor [2, 3] [1/10, 7/10, 2/10, 9/10, 5/100, 3/100]

/-- Labels `[1, 2]`. -/
def relabelL : Tensor := mkTensor [2] [1, 2]

/-- The relabelling `k ↦ (k + 1) mod 3` of three classes. -/
def rotate3 (k : Nat) : Nat := (k + 1) % 3

/-- The predictions of `relabelX` with class `k` listed at `rotate3 k`. -/
def relabelX' : Tensor := mkTensor [2, 3] [2/10, 1/10, 7/10, 3/100, 9/10, 5/100]

/-- The labels of `relabelL` relabelled by `rotate3`: `[2, 0]`. -/
def relabelL' : Tensor := mkTensor [2] [2, 0]

/-- The operator of `relabelOp` with `top_k = 1`. -/
def top1Op : AccuracyOp :=
  { top_k := 1, ignore_labels := [], outer_num := 2, inner_num := 1, classes := 3 }

/-- The class with the greatest score in `specX` and in `relabelX`: class 1 for
the first example, class 0 for the second. -/
def specArgmax (i : Nat) (_j : Nat) : Nat := if i = 0 then 1 else 0

/-- A `float32` input of shape `[2, 2]` for Copy. -/
def copyX : Tensor := mkTensor [2, 2] [1, 2, 3, 4]

/-- An output buffer of another shape, holding 7 everywhere. -/
def copyY : Tensor := { dims := [3], type_meta := TypeMeta.float32, data := fun _ => 7 }

/-- The operator of the OneHot examples: `depth = 4`, `on_value = 1`,
`off_value = 0`. -/
def oneHotOp : OneHotOp := { depth := 4, on_value := 1, off_value := 0 }

/-- The input `[2]`. -/
def oneHotX1 : Tensor := mkTensor [1] [2]

/-- The input `[0, 3]`. -/
def oneHotX2 : Tensor := mkTensor [2] [0, 3]

/-- An `int32` buffer of shape `[2, 3]`. -/
def int32X : Tensor :=
  { dims := [2, 3], type_meta := TypeMeta.int32, data := fun n => [1, 2, 3, 4, 5, 6].getD n 0 }

/-- Three labels, one more than the two examples of `specX`. -/
def threeLabels : Tensor := mkTensor [3] [1, 0, 2]

/-- The operator of the specification's example with `top_k = 2`. -/
def top2Op : AccuracyOp :=
  { top_k := 2, ignore_labels := [], outer_num := 2, inner_num := 1, classes := 3 }

/-- The OneHot operator with an `off_value` that is no float32 value:
`2 ^ 24 + 1`. -/
def bigOffOp : OneHotOp := { depth := 4, on_value := 1, off_value := 16777217 }

/-- Three examples over two classes, `top_k = 1`, nothing ignored. -/
def thirdOp : AccuracyOp :=
  { top_k := 1, ignore_labels := [], outer_num := 3, inner_num := 1, classes := 2 }

/-- Predictions `[[0.75, 0.25], [0.75, 0.25], [0.75, 0.25]]`. -/
def thirdX : Tensor := mkTensor [3, 2] [3/4, 1/4, 3/4, 1/4, 3/4, 1/4]

/-- Labels `[0, 1, 1]`: one of the three is the class with the greatest score. -/
def thirdL : Tensor := mkTensor [3] [0, 1, 1]

/-- As many examples as `2 ^ 24 + 1`, of one class each, `top_k = 1`. -/
def bigOp : AccuracyOp :=
  { top_k := 1, ignore_labels := [], outer_num := 16777217, inner_num := 1, classes := 1 }

/-- A score 0 for each of the `2 ^ 24 + 1` examples. -/
def bigX : Tensor := mkTensor [16777217, 1] []

/-- The label 0 for each of the `2 ^ 24 + 1` examples. -/
def bigL : Tensor := mkTensor [16777217] []

/-! ## Lemmas: the pair order and the sort -/

theorem pairLt_irrefl (a : ℚ × Int) : ¬ pairLt a a := by
  unfold pairLt
  rintro (h | ⟨_, h⟩)
  · exact lt_irrefl _ h
  · exact lt_irrefl _ h

theorem pairLt_total (a b : ℚ × Int) (h : a ≠ b) : pairLt a b ∨ pairLt b a := by
  unfold pairLt
  rcases lt_trichotomy a.1 b.1 with h1 | h1 | h1
  · exact Or.inl (Or.inl h1)
  · rcases lt_trichotomy a.2 b.2 with h2 | h2 | h2
    · exact Or.inl (Or.inr ⟨by rw [h1]; exact lt_irrefl _, h2⟩)
    · exact absurd (Prod.ext h1 h2) h
    · exact Or.inr (Or.inr ⟨by rw [h1]; exact lt_irrefl _, h2⟩)
  · exact Or.inr (Or.inl h1)

theorem pairLt_asymm (a b : ℚ × Int) (h : pairLt a b) : ¬ pairLt b a := by
  unfold pairLt at *
  rintro (h' | ⟨h1, h2⟩)
  · rcases h with h | ⟨h, _⟩
    · exact lt_asymm h h'
    · exact h h'
  · rcases h with h | ⟨_, h⟩
    · exact h1 h
    · exact lt_asymm h h2

theorem pairLt_trans (a b c : ℚ × Int) (h1 : pairLt a b) (h2 : pairLt b c) : pairLt a c := by
  unfold pairLt at *
  rcases h1 with h1 | ⟨h1, h1'⟩
  · rcases h2 with h2 | ⟨h2, _⟩
    · exact Or.inl (lt_trans h1 h2)
    · exact Or.inl (lt_of_lt_of_le h1 (not_lt.mp h2))
  · rcases h2 with h2 | ⟨h2, h2'⟩
    · exact Or.inl (lt_of_le_of_lt (not_lt.mp h1) h2)
    · exact Or.inr ⟨not_lt.mpr (le_trans (not_lt.mp h1) (not_lt.mp h2)), lt_trans h1' h2'⟩

theorem greater_iff (a b : ℚ × Int) : greater a b = true ↔ pairLt b a := by
  simp [greater]

theorem insertGreater_perm (a : ℚ × Int) (l : List (ℚ × Int)) :
    List.Perm (insertGreater a l) (a :: l) := by
  induction l with
  | nil => exact List.Perm.refl _
  | cons b l ih =>
    unfold insertGreater
    split
    · exact List.Perm.refl _
    · exact (List.Perm.cons b ih).trans (List.Perm.swap a b l)

theorem sortGreater_perm (l : List (ℚ × Int)) : List.Perm (sortGreater l) l := by
  induction l with
  | nil => exact List.Perm.refl _
  | cons a l ih =>
    unfold sortGreater
    exact (insertGreater_perm a _).trans (List.Perm.cons a ih)

theorem insertGreater_descending (a : ℚ × Int) (l : List (ℚ × Int))
    (h : Descending l) : Descending (insertGreater a l) := by
  induction l with
  | nil => simp [insertGreater, Descending]
  | cons b l ih =>
    unfold Descending at h ih ⊢
    rw [List.pairwise_cons] at h
    unfold insertGreater
    split
    · rename_i hab
      rw [greater_iff] at hab
      rw [List.pairwise_cons, List.pairwise_cons]
      refine ⟨?_, h.1, h.2⟩
      intro c hc
      rcases List.mem_cons.mp hc with rfl | hc
      · exact pairLt_asymm _ _ hab
      · intro hac
        exact h.1 c hc (pairLt_trans _ _ _ hab hac)
    · rename_i hab
      rw [greater_iff] at hab
      rw [List.pairwise_cons]
      refine ⟨?_, ih h.2⟩
      intro c hc
      rcases List.mem_cons.mp ((insertGreater_perm a l).subset hc) with rfl | hc
      · exact hab
      · exact h.1 c hc

theorem sortGreater_descending (l : List (ℚ × Int)) : Descending (sortGreater l) := by
  induction l with
  | nil => simp [sortGreater, Descending]
  | cons a l ih =>
    unfold sortGreater
    exact insertGreater_descending a _ ih

theorem mem_take_descending (l : List (ℚ × Int)) (h : Descending l) (k : Nat)
    (p : ℚ × Int) : p ∈ l.take k ↔ isTopK l k p := by
  induction l generalizing k with
  | nil => simp [isTopK]
  | cons a l ih =>
    unfold Descending at h ih
    rw [List.pairwise_cons] at h
    cases k with
    | zero => simp [isTopK]
    | succ k =>
      rw [List.take_succ_cons, List.mem_cons, ih h.2 k]
      unfold isTopK rank
      by_cases hpa : p = a
      · subst hpa
        have h0 : List.countP (fun q => greater q p) (p :: l) = 0 := by
          rw [List.countP_eq_zero]
          intro q hq
          rcases List.mem_cons.mp hq with rfl | hq
          · simp [greater_iff, pairLt_irrefl]
          · simp only [greater_iff]
            intro hpq
            exact h.1 q hq hpq
        simp [h0]
      · by_cases hpl : p ∈ l
        · have hgt : greater a p = true := by
            rw [greater_iff]
            rcases pairLt_total p a hpa with h1 | h1
            · exact h1
            · exact absurd h1 (h.1 p hpl)
          rw [List.countP_cons_of_pos (fun q => greater q p) l hgt]
          simp [hpa, hpl]
        · simp [hpa, hpl]

theorem mem_take_sortGreater (l : List (ℚ × Int)) (k : Nat) (p : ℚ × Int) :
    p ∈ (sortGreater l).take k ↔ isTopK l k p := by
  rw [mem_take_descending _ (sortGreater_descending l)]
  unfold isTopK rank
  rw [(sortGreater_perm l).mem_iff, (sortGreater_perm l).countP_eq]

theorem take_partial_sort (l : List (ℚ × Int)) (k : Nat) :
    (partial_sort l k).take k = (sortGreater l).take k := by
  unfold partial_sort
  rw [List.take_append_drop]

/-! ## Lemmas: the loops of `RunWithType` -/

theorem ignoreLoop_eq (ignores : List Int) (label : Int) (st : AccState) :
    ignoreLoop ignores label st = st := by
  unfold ignoreLoop
  induction ignores generalizing st with
  | nil => rfl
  | cons a l ih => rw [List.foldl_cons, ite_self]; exact ih st

theorem topkLoop_eq (label : Int) (outputSize : Nat) (l : List (ℚ × Int)) (st : AccState) :
    topkLoop label outputSize l st =
      if l.any (fun p => decide (p.2 = label)) then
        { st with
          acc_per_class :=
            if outputSize > 1 then dataIncr st.acc_per_class label else st.acc_per_class
          acc := st.acc + 1 }
      else st := by
  induction l with
  | nil => simp [topkLoop]
  | cons p l ih =>
    unfold topkLoop
    by_cases hp : p.2 = label
    · simp [hp]
    · rw [if_neg hp, ih, List.any_cons, decide_eq_false hp, Bool.false_or]

theorem position_eq (op : AccuracyOp) (outputSize : Nat) (Xdata labels : Nat → ℚ)
    (dim i j : Nat) (st : AccState) :
    position op outputSize Xdata labels dim i j st =
      { acc := st.acc + (if hit op Xdata labels dim i j then 1 else 0)
        count := st.count + 1
        num_per_class :=
          if outputSize > 1 then
            mapIncr st.num_per_class (toInt (labels (i * op.inner_num + j)))
          else st.num_per_class
        acc_per_class :=
          if outputSize > 1 ∧ hit op Xdata labels dim i j = true then
            dataIncr st.acc_per_class (toInt (labels (i * op.inner_num + j)))
          else st.acc_per_class } := by
  unfold position
  simp only [ignoreLoop_eq, topkLoop_eq]
  by_cases hh : hit op Xdata labels dim i j = true
  · have hh' := hh
    unfold hit at hh'
    by_cases ho : outputSize > 1
    · simp [hh, hh', ho]
    · simp [hh, hh', ho]
  · have hh' := hh
    unfold hit at hh'
    by_cases ho : outputSize > 1
    · simp [hh, hh', ho]
    · simp [hh, hh', ho]

theorem foldl_count {σ M : Type} [AddCommMonoidWithOne M] (f : Nat → σ → σ) (m : σ → M)
    (good : Nat → Bool) (h : ∀ j s, m (f j s) = m s + (if good j then 1 else 0))
    (l : List Nat) (s : σ) :
    m (l.foldl (fun s j => f j s) s) = m s + ((l.countP good : Nat) : M) := by
  induction l generalizing s with
  | nil => simp
  | cons a l ih =>
    rw [List.foldl_cons, ih, h, List.countP_cons]
    by_cases hg : good a = true
    · simp only [hg, if_true, Nat.cast_add, Nat.cast_one]
      rw [add_assoc, add_comm 1]
    · simp [hg]

theorem foldl_sum {σ M : Type} [AddCommMonoidWithOne M] (f : Nat → σ → σ) (m : σ → M)
    (g : Nat → Nat) (h : ∀ i s, m (f i s) = m s + ((g i : Nat) : M))
    (l : List Nat) (s : σ) :
    m (l.foldl (fun s i => f i s) s) = m s + (((l.map g).sum : Nat) : M) := by
  induction l generalizing s with
  | nil => simp
  | cons a l ih =>
    rw [List.foldl_cons, ih, h, List.map_cons, List.sum_cons, Nat.cast_add, add_assoc]

/-- The two nested loops add to a measure of the state the number of positions
at which the body adds one. -/
theorem nested_count {M : Type} [AddCommMonoidWithOne M] (op : AccuracyOp)
    (f : Nat → Nat → AccState → AccState) (m : AccState → M) (good : Nat → Nat → Bool)
    (h : ∀ i j s, m (f i j s) = m s + (if good i j then 1 else 0)) (s : AccState) :
    m ((List.range op.outer_num).foldl
        (fun s i => (List.range op.inner_num).foldl (fun s j => f i j s) s) s) =
      m s + ((countPositions op good : Nat) : M) := by
  unfold countPositions
  exact foldl_sum (fun i s => (List.range op.inner_num).foldl (fun s j => f i j s) s) m
    (fun i => (List.range op.inner_num).countP (fun j => good i j))
    (fun i s => foldl_count (f i) m (good i) (h i) _ s) _ s

theorem countPositions_all (op : AccuracyOp) :
    countPositions op (fun _ _ => true) = op.outer_num * op.inner_num := by
  unfold countPositions
  simp

theorem countPositions_le (op : AccuracyOp) (good : Nat → Nat → Bool) :
    countPositions op good ≤ op.outer_num * op.inner_num := by
  rw [← countPositions_all op]
  unfold countPositions
  apply List.sum_le_sum
  intro i _
  simp only [List.countP_true, List.length_range]
  calc List.countP (fun j => good i j) (List.range op.inner_num)
      ≤ (List.range op.inner_num).length := List.countP_le_length _
    _ = op.inner_num := List.length_range _

theorem countPositions_congr (op : AccuracyOp) (g1 g2 : Nat → Nat → Bool)
    (h : ∀ i, i < op.outer_num → ∀ j, j < op.inner_num → g1 i j = g2 i j) :
    countPositions op g1 = countPositions op g2 := by
  unfold countPositions
  congr 1
  apply List.map_congr_left
  intro i hi
  apply List.countP_congr
  intro j hj
  rw [h i (List.mem_range.mp hi) j (List.mem_range.mp hj)]

theorem loops_acc (op : AccuracyOp) (outputSize : Nat) (X L : Tensor) (Y1 : Nat → ℚ) :
    (loops op outputSize X L Y1).acc =
      (countPositions op (hit op X.data L.data (X.count / op.outer_num)) : ℚ) := by
  unfold loops innerLoop
  simp only
  rw [nested_count op (fun i j s => position op outputSize X.data L.data _ i j s)
    (fun s => s.acc) (hit op X.data L.data (X.count / op.outer_num))
    (fun i j s => by beta_reduce; rw [position_eq])]
  simp

theorem loops_count (op : AccuracyOp) (outputSize : Nat) (X L : Tensor) (Y1 : Nat → ℚ) :
    (loops op outputSize X L Y1).count = ((op.outer_num * op.inner_num : Nat) : ℚ) := by
  unfold loops innerLoop
  simp only
  rw [nested_count op (fun i j s => position op outputSize X.data L.data _ i j s)
    (fun s => s.count) (fun _ _ => true)
    (fun i j s => by beta_reduce; rw [position_eq]; simp), countPositions_all]
  simp

theorem loops_num_per_class (op : AccuracyOp) (outputSize : Nat) (X L : Tensor)
    (Y1 : Nat → ℚ) (c : Int) :
    (loops op outputSize X L Y1).num_per_class c =
      ((countPositions op
        (fun i j => decide (outputSize > 1) && decide (labelAt op L i j = c)) : Nat) : Int) := by
  unfold loops innerLoop
  simp only
  rw [nested_count op (fun i j s => position op outputSize X.data L.data _ i j s)
    (fun s => s.num_per_class c)
    (fun i j => decide (outputSize > 1) && decide (labelAt op L i j = c))
    (fun i j s => by
      beta_reduce
      rw [position_eq]
      unfold mapIncr labelAt
      by_cases ho : outputSize > 1
      · by_cases hc : c = toInt (L.data (i * op.inner_num + j))
        · simp [ho, hc]
        · simp [ho, hc, Ne.symm hc]
      · simp [ho])]
  simp

theorem loops_acc_per_class (op : AccuracyOp) (outputSize : Nat) (X L : Tensor)
    (Y1 : Nat → ℚ) (c : Nat) :
    (loops op outputSize X L Y1).acc_per_class c =
      (if outputSize > 1 then math.Set op.classes 0 Y1 c else Y1 c) +
      ((countPositions op
        (fun i j => decide (outputSize > 1) && hit op X.data L.data (X.count / op.outer_num) i j
          && decide (c = (labelAt op L i j).toNat)) : Nat) : ℚ) := by
  unfold loops innerLoop
  simp only
  rw [nested_count op (fun i j s => position op outputSize X.data L.data _ i j s)
    (fun s => s.acc_per_class c)
    (fun i j => decide (outputSize > 1) && hit op X.data L.data (X.count / op.outer_num) i j
          && decide (c = (labelAt op L i j).toNat))
    (fun i j s => by
      beta_reduce
      rw [position_eq]
      unfold dataIncr labelAt
      by_cases ho : outputSize > 1
      · by_cases hh : hit op X.data L.data (X.count / op.outer_num) i j = true
        · by_cases hc : c = (toInt (L.data (i * op.inner_num + j))).toNat
          · simp [ho, hh, ← hc]
          · simp [ho, hh, hc]
        · simp [ho, hh]
      · simp [ho])]
  by_cases ho : outputSize > 1
  · simp [ho]
  · simp [ho]

/-- The scan of the code finds the label exactly when the label is the class of
one of the `top_k` greatest pairs. -/
theorem hit_eq_labelInTopK (op : AccuracyOp) (X L : Tensor) (i j : Nat) :
    hit op X.data L.data (X.count / op.outer_num) i j = labelInTopK op X L i j := by
  rw [Bool.eq_iff_iff]
  unfold hit labelInTopK labelAt
  rw [take_partial_sort, List.any_eq_true, List.any_eq_true]
  constructor
  · rintro ⟨p, hp, hl⟩
    rw [mem_take_sortGreater] at hp
    exact ⟨p, hp.1, by simp [hp, of_decide_eq_true hl]⟩
  · rintro ⟨p, _, hl⟩
    rw [Bool.and_eq_true] at hl
    refine ⟨p, ?_, hl.2⟩
    rw [mem_take_sortGreater]
    exact of_decide_eq_true hl.1

theorem mem_scoreVec (op : AccuracyOp) (X : Tensor) (i j : Nat) (p : ℚ × Int) :
    p ∈ scoreVec op X.data (X.count / op.outer_num) i j ↔
      ∃ k, k < op.classes ∧ p = (score op X i k j, (k : Int)) := by
  unfold scoreVec score
  rw [List.mem_map]
  constructor
  · rintro ⟨k, hk, rfl⟩
    exact ⟨k, List.mem_range.mp hk, rfl⟩
  · rintro ⟨k, hk, rfl⟩
    exact ⟨k, List.mem_range.mpr hk, rfl⟩

theorem rank_scoreVec (op : AccuracyOp) (X : Tensor) (i j : Nat) (p : ℚ × Int) :
    rank (scoreVec op X.data (X.count / op.outer_num) i j) p =
      (List.range op.classes).countP
        (fun k => greater (score op X i k j, (k : Int)) p) := by
  unfold rank scoreVec score
  rw [List.countP_map]
  rfl

/-- The label is among the `top_k` classes exactly when it is a class `l` whose
pair has fewer than `top_k` pairs above it. -/
theorem labelInTopK_iff (op : AccuracyOp) (X L : Tensor) (i j : Nat) :
    labelInTopK op X L i j = true ↔
      ∃ l, l < op.classes ∧ labelAt op L i j = (l : Int) ∧
        (List.range op.classes).countP
          (fun k => greater (score op X i k j, (k : Int)) (score op X i l j, (l : Int)))
            < op.top_k := by
  unfold labelInTopK
  rw [List.any_eq_true]
  constructor
  · rintro ⟨p, hp, hl⟩
    rw [Bool.and_eq_true] at hl
    obtain ⟨k, hk, rfl⟩ := (mem_scoreVec op X i j p).mp hp
    have h1 := of_decide_eq_true hl.1
    have h2 := of_decide_eq_true hl.2
    refine ⟨k, hk, h2.symm, ?_⟩
    rw [← rank_scoreVec]
    exact h1.2
  · rintro ⟨l, hl, hlab, hr⟩
    refine ⟨(score op X i l j, (l : Int)), (mem_scoreVec op X i j _).mpr ⟨l, hl, rfl⟩, ?_⟩
    rw [Bool.and_eq_true]
    refine ⟨decide_eq_true ⟨(mem_scoreVec op X i j _).mpr ⟨l, hl, rfl⟩, ?_⟩,
      decide_eq_true hlab.symm⟩
    rw [rank_scoreVec]
    exact hr

theorem RunWithType_output0 (op : AccuracyOp) (outputSize : Nat) (X L : Tensor)
    (Y1 : Nat → ℚ) :
    (op.RunWithType outputSize X L Y1).output0 =
      fdiv (countPositions op (labelInTopK op X L) : ℚ)
        ((op.outer_num * op.inner_num : Nat) : ℚ) := by
  unfold AccuracyOp.RunWithType
  simp only
  rw [loops_acc, loops_count]
  have h : hit op X.data L.data (X.count / op.outer_num) = labelInTopK op X L := by
    funext i j
    exact hit_eq_labelInTopK op X L i j
  rw [h]

theorem fdiv_pos (a : ℚ) (n : Nat) (h : 0 < n) : fdiv a (n : ℚ) = some (a / (n : ℚ)) := by
  unfold fdiv
  rw [if_neg]
  exact_mod_cast Nat.pos_iff_ne_zero.mp h

theorem countPositions_none (op : AccuracyOp) :
    countPositions op (fun _ _ => false) = 0 := by
  unfold countPositions
  simp

/-! ## Lemmas: positions without ties -/

theorem countP_greater_of_distinct (f : Nat → ℚ) (n l : Nat)
    (hd : ∀ a, a < n → ∀ b, b < n → a ≠ b → f a ≠ f b) (hl : l < n) :
    (List.range n).countP (fun k => greater (f k, (k : Int)) (f l, (l : Int))) =
      (List.range n).countP (fun k => decide (f l < f k)) := by
  apply List.countP_congr
  intro k hk
  have hk' := List.mem_range.mp hk
  rw [greater_iff, decide_eq_true_iff]
  unfold pairLt
  simp only
  constructor
  · rintro (h | ⟨h1, h2⟩)
    · exact h
    · have hne : l ≠ k := by
        intro h
        rw [h] at h2
        exact lt_irrefl _ h2
      rcases lt_trichotomy (f l) (f k) with h | h | h
      · exact h
      · exact absurd h (hd l hl k hk' hne)
      · exact absurd h h1
  · intro h
    exact Or.inl h

theorem labelInTopK_of_distinct (op : AccuracyOp) (X L : Tensor) (i j l : Nat)
    (hd : ∀ a, a < op.classes → ∀ b, b < op.classes → a ≠ b →
      score op X i a j ≠ score op X i b j)
    (hl : l < op.classes) (hlab : labelAt op L i j = (l : Int)) :
    labelInTopK op X L i j =
      decide ((List.range op.classes).countP
        (fun k => decide (score op X i l j < score op X i k j)) < op.top_k) := by
  rw [Bool.eq_iff_iff, labelInTopK_iff, decide_eq_true_iff]
  rw [← countP_greater_of_distinct (fun k => score op X i k j) op.classes l hd hl]
  constructor
  · rintro ⟨l', _, hlab', hr⟩
    have : l' = l := by
      have h := hlab'.symm.trans hlab
      exact_mod_cast h
    rw [this] at hr
    exact hr
  · intro hr
    exact ⟨l, hl, hlab, hr⟩

theorem labelInTopK_out_of_range (op : AccuracyOp) (X L : Tensor) (i j : Nat)
    (h : ∀ l, l < op.classes → labelAt op L i j ≠ (l : Int)) :
    labelInTopK op X L i j = false := by
  rw [Bool.eq_false_iff]
  intro ht
  obtain ⟨l, hl, hlab, _⟩ := (labelInTopK_iff op X L i j).mp ht
  exact h l hl hlab

theorem map_range_perm (s : Nat → Nat) (n : Nat) (hs : ∀ k, k < n → s k < n)
    (hinj : ∀ a, a < n → ∀ b, b < n → s a = s b → a = b) :
    List.Perm ((List.range n).map s) (List.range n) := by
  have hnd : ((List.range n).map s).Nodup :=
    List.Nodup.map_on
      (fun a ha b hb h => hinj a (List.mem_range.mp ha) b (List.mem_range.mp hb) h)
      (List.nodup_range n)
  have hsub : (List.range n).map s ⊆ List.range n := by
    intro x hx
    obtain ⟨k, hk, rfl⟩ := List.mem_map.mp hx
    exact List.mem_range.mpr (hs k (List.mem_range.mp hk))
  exact (List.subperm_of_subset hnd hsub).perm_of_length_le (by simp)

theorem countP_range_perm (s : Nat → Nat) (n : Nat) (hs : ∀ k, k < n → s k < n)
    (hinj : ∀ a, a < n → ∀ b, b < n → s a = s b → a = b) (g : Nat → Bool) :
    (List.range n).countP (fun k => g (s k)) = (List.range n).countP g := by
  rw [← (map_range_perm s n hs hinj).countP_eq g, List.countP_map]
  rfl

theorem perm_surj (s : Nat → Nat) (n : Nat) (hs : ∀ k, k < n → s k < n)
    (hinj : ∀ a, a < n → ∀ b, b < n → s a = s b → a = b) (k : Nat) (hk : k < n) :
    ∃ a, a < n ∧ s a = k := by
  have h := (map_range_perm s n hs hinj).mem_iff.mpr (List.mem_range.mpr hk)
  obtain ⟨a, ha, rfl⟩ := List.mem_map.mp h
  exact ⟨a, List.mem_range.mp ha, rfl⟩

/-! ## Accuracy: the claims -/

/-- C1 (the code does not do this): with label 1 in `ignore_labels` the
position labelled 1 is still scored.  On predictions `[[0.9, 0.1], [0.9, 0.1]]`
and labels `[0, 1]` the code gives accuracy 1/2 over a denominator of 2, while
the run restricted to the position whose label is not 1 gives accuracy 1 over
a denominator of 1. -/
theorem accuracy_ignored_label_still_scored :
    (ignoreOp.RunWithType 1 ignoreX ignoreL (fun _ => 0)).output0 = some (1 / 2) ∧
    (loops ignoreOp 1 ignoreX ignoreL (fun _ => 0)).count = 2 ∧
    (loops ignoreOp 1 ignoreX ignoreL (fun _ => 0)).acc = 1 ∧
    (keptOp.RunWithType 1 keptX keptL (fun _ => 0)).output0 = some 1 ∧
    (loops keptOp 1 keptX keptL (fun _ => 0)).count = 1 := by
  decide!

/-- C2 (the code does not do this): the per-class quotient of line 70 divides
the correct-count of the class by itself.  With class 0 the label of two
positions, one of them correct, output 1 at index 0 is 1 and not 1/2; with
class 0 the label of one position that is not correct, output 1 at index 0 is
not a finite number (0/0) and not 0. -/
theorem accuracy_per_class_divides_by_itself :
    (perClassOp.RunWithType 2 perClassX perClassL (fun _ => 0)).output1 0 = some 1 ∧
    countPositions perClassOp (fun i j => decide (labelAt perClassOp perClassL i j = 0)) = 2 ∧
    countPositions perClassOp (fun i j => labelInTopK perClassOp perClassX perClassL i j
      && decide (labelAt perClassOp perClassL i j = 0)) = 1 ∧
    (perClassOp.RunWithType 2 perClassX perClassMissL (fun _ => 0)).output1 0 = none := by
  decide!

/-- C5: when the second output is requested, a class `c < classes` that is the
label of no position has output 1 at index `c` exactly 0, for every prediction
buffer and every `top_k <= classes`. -/
theorem accuracy_per_class_zero_guard (op : AccuracyOp) (outputSize : Nat)
    (X L : Tensor) (Y1 : Nat → ℚ) (c : Nat)
    (hout : outputSize > 1) (hc : c < op.classes) (_hk : op.top_k ≤ op.classes)
    (hno : ∀ i, i < op.outer_num → ∀ j, j < op.inner_num → labelAt op L i j ≠ (c : Int)) :
    (op.RunWithType outputSize X L Y1).output1 c = some 0 := by
  unfold AccuracyOp.RunWithType
  simp only
  rw [if_pos ⟨hout, hc⟩, loops_num_per_class]
  rw [countPositions_congr op _ (fun _ _ => false)
    (fun i hi j hj => by simp [hno i hi j hj]), countPositions_none]
  simp

/-- Witness of C5: class 2 is no label in the example of the specification. -/
theorem accuracy_per_class_zero_guard_witness :
    (specOp.RunWithType 2 specX specL (fun _ => 0)).output1 2 = some 0 :=
  accuracy_per_class_zero_guard specOp 2 specX specL (fun _ => 0) 2 (by decide) (by decide)
    (by decide) (by decide!)

/-- C6 (the code does not do this): class 0 is in `ignore_labels` and is the
label of the one position; the position is scored all the same and output 1 at
index 0 is 1, not 0. -/
theorem accuracy_ignored_class_not_zero :
    (allIgnoredOp.RunWithType 2 keptX keptL (fun _ => 0)).output1 0 = some 1 ∧
    (0 : Int) ∈ allIgnoredOp.ignore_labels ∧
    labelAt allIgnoredOp keptL 0 0 = 0 := by
  decide!

/-- With `top_k = 1` and distinct scores, the label is selected exactly when it
is the class with the maximum score. -/
theorem labelInTopK_top1 (op : AccuracyOp) (X L : Tensor) (argmax : Nat → Nat → Nat)
    (i j : Nat) (hk : op.top_k = 1)
    (hdist : ∀ a, a < op.classes → ∀ b, b < op.classes → a ≠ b →
      score op X i a j ≠ score op X i b j)
    (ham : argmax i j < op.classes)
    (hle : ∀ k, k < op.classes → score op X i k j ≤ score op X i (argmax i j) j) :
    labelInTopK op X L i j = decide (labelAt op L i j = (argmax i j : Int)) := by
  by_cases h : ∃ l, l < op.classes ∧ labelAt op L i j = (l : Int)
  · obtain ⟨l, hl, hlab⟩ := h
    rw [labelInTopK_of_distinct op X L i j l hdist hl hlab, hk, hlab]
    by_cases hla : l = argmax i j
    · subst hla
      have h0 : (List.range op.classes).countP
          (fun k => decide (score op X i (argmax i j) j < score op X i k j)) = 0 := by
        rw [List.countP_eq_zero]
        intro k hk'
        simp only [decide_eq_true_eq, not_lt]
        exact hle k (List.mem_range.mp hk')
      rw [h0]
      simp
    · have hlt : score op X i l j < score op X i (argmax i j) j :=
        lt_of_le_of_ne (hle l hl) (hdist l hl _ ham hla)
      have hpos' : 0 < (List.range op.classes).countP
          (fun k => decide (score op X i l j < score op X i k j)) := by
        rw [List.countP_pos_iff]
        exact ⟨argmax i j, List.mem_range.mpr ham, decide_eq_true hlt⟩
      have hne : ¬ ((l : Int) = (argmax i j : Int)) := by
        intro hc
        exact hla (by exact_mod_cast hc)
      rw [decide_eq_false hne, decide_eq_false (by omega)]
  · rw [labelInTopK_out_of_range op X L i j
      (fun l hl hlab => h ⟨l, hl, hlab⟩)]
    symm
    rw [decide_eq_false_iff_not]
    intro hc
    exact h ⟨argmax i j, ham, hc⟩

/-- C7: for a permutation `s` of the classes, scores pairwise distinct at each
position, labels in `[0, classes)` and `top_k <= classes`, the run on
predictions' and labels' with `predictions'[i, s k, j] = predictions[i, k, j]`
and `labels'[i, j] = s (labels[i, j])` gives the same output 0. -/
theorem accuracy_relabel_invariant (op : AccuracyOp) (outputSize : Nat)
    (X L X' L' : Tensor) (Y1 Y1' : Nat → ℚ) (s : Nat → Nat)
    (hs : ∀ k, k < op.classes → s k < op.classes)
    (hinj : ∀ a, a < op.classes → ∀ b, b < op.classes → s a = s b → a = b)
    (hdist : ∀ i, i < op.outer_num → ∀ j, j < op.inner_num →
      ∀ a, a < op.classes → ∀ b, b < op.classes → a ≠ b →
        score op X i a j ≠ score op X i b j)
    (hlab : ∀ i, i < op.outer_num → ∀ j, j < op.inner_num →
      0 ≤ labelAt op L i j ∧ labelAt op L i j < (op.classes : Int))
    (_hk : op.top_k ≤ op.classes)
    (hX : ∀ i, i < op.outer_num → ∀ j, j < op.inner_num → ∀ k, k < op.classes →
      score op X' i (s k) j = score op X i k j)
    (hL : ∀ i, i < op.outer_num → ∀ j, j < op.inner_num →
      labelAt op L' i j = (s (labelAt op L i j).toNat : Int)) :
    (op.RunWithType outputSize X' L' Y1').output0 =
      (op.RunWithType outputSize X L Y1).output0 := by
  rw [RunWithType_output0, RunWithType_output0]
  rw [countPositions_congr op (labelInTopK op X' L') (labelInTopK op X L)]
  intro i hi j hj
  obtain ⟨h0, h1⟩ := hlab i hi j hj
  have hl : (labelAt op L i j).toNat < op.classes := by omega
  have hlab' : labelAt op L i j = ((labelAt op L i j).toNat : Int) := by omega
  have hdist' : ∀ a, a < op.classes → ∀ b, b < op.classes → a ≠ b →
      score op X' i a j ≠ score op X' i b j := by
    intro a ha b hb hab
    obtain ⟨a', ha', rfl⟩ := perm_surj s op.classes hs hinj a ha
    obtain ⟨b', hb', rfl⟩ := perm_surj s op.classes hs hinj b hb
    rw [hX i hi j hj a' ha', hX i hi j hj b' hb']
    exact hdist i hi j hj a' ha' b' hb' (fun h => hab (by rw [h]))
  rw [labelInTopK_of_distinct op X L i j _ (hdist i hi j hj) hl hlab',
    labelInTopK_of_distinct op X' L' i j _ hdist' (hs _ hl) (hL i hi j hj),
    ← countP_range_perm s op.classes hs hinj
      (fun k => decide (score op X' i (s (labelAt op L i j).toNat) j < score op X' i k j))]
  congr 2
  apply List.countP_congr
  intro k hk
  rw [hX i hi j hj k (List.mem_range.mp hk), hX i hi j hj _ hl]

/-- Witness of C7: three classes rotated by one on two examples with distinct
scores, `top_k = 2`. -/
theorem accuracy_relabel_invariant_witness :
    (relabelOp.RunWithType 1 relabelX' relabelL' (fun _ => 0)).output0 =
      (relabelOp.RunWithType 1 relabelX relabelL (fun _ => 0)).output0 :=
  accuracy_relabel_invariant relabelOp 1 relabelX relabelL relabelX' relabelL'
    (fun _ => 0) (fun _ => 0) rotate3 (by decide) (by decide) (by decide!) (by decide!)
    (by decide) (by decide!) (by decide!)

/-! ## Lemmas: float32 rounding -/

theorem roundHalfEven_intCast (z : Int) : roundHalfEven (z : ℚ) = z := by
  unfold roundHalfEven
  rw [Int.floor_intCast, sub_self, if_pos (by norm_num)]

theorem log2Fuel_le (fuel n k : Nat) (h : n < 2 ^ (k + 1)) : log2Fuel fuel n ≤ k := by
  induction fuel generalizing n k with
  | zero => simp [log2Fuel]
  | succ fuel ih =>
    unfold log2Fuel
    split
    · omega
    · cases k with
      | zero => omega
      | succ k =>
        have h2 : n / 2 < 2 ^ (k + 1) := by
          rw [pow_succ] at h
          omega
        have := ih (n / 2) k h2
        omega

theorem floorLog2_le (q : ℚ) :
    floorLog2 q ≤ (natLog2 q.num.natAbs : Int) - (natLog2 q.den : Int) := by
  unfold floorLog2
  simp only
  split <;> omega

theorem ulpExp_intCast (v : Int) (h : v.natAbs < 2 ^ 24) :
    ulpExp (v : ℚ) ≤ 0 := by
  unfold ulpExp
  have habs : |(v : ℚ)| = ((v.natAbs : Int) : ℚ) := by
    rw [Int.natCast_natAbs, Int.cast_abs]
  have h1 := floorLog2_le |(v : ℚ)|
  rw [habs, Rat.num_intCast, Rat.den_intCast, Int.natAbs_ofNat] at h1
  have h2 : natLog2 v.natAbs ≤ 23 := log2Fuel_le _ _ 23 h
  have h3 : natLog2 1 = 0 := rfl
  rw [h3] at h1
  rw [habs]
  omega

/-- An `int` of absolute value at most `2 ^ 24` is a float32 value. -/
theorem round32_intCast (v : Int) (h : v.natAbs ≤ 2 ^ 24) : round32 (v : ℚ) = v := by
  by_cases h24 : v.natAbs = 2 ^ 24
  · rcases Int.natAbs_eq v with hv | hv
    · rw [hv, h24]
      decide!
    · rw [hv, h24]
      decide!
  · by_cases h0 : v = 0
    · rw [h0]
      simp [round32]
    · have hlt : v.natAbs < 2 ^ 24 := lt_of_le_of_ne h h24
      obtain ⟨k, hk⟩ := Int.exists_eq_neg_ofNat (ulpExp_intCast v hlt)
      unfold round32
      rw [if_neg (by exact_mod_cast h0), hk, zpow_neg, zpow_natCast, div_inv_eq_mul]
      have hz : (v : ℚ) * 2 ^ k = ((v * 2 ^ k : Int) : ℚ) := by push_cast; ring
      rw [hz, roundHalfEven_intCast]
      push_cast
      field_simp

theorem round32_natCast (n : Nat) (h : n ≤ 2 ^ 24) : round32 (n : ℚ) = n := by
  have := round32_intCast (n : Int) (by simpa using h)
  simpa using this

/-- A float counter that holds a natural number up to `2 ^ 24` moves to the next
one and stops at `2 ^ 24`. -/
theorem float_incr_natCast (c : Nat) (h : c ≤ 2 ^ 24) :
    float_incr (c : ℚ) = ((min (c + 1) (2 ^ 24) : Nat) : ℚ) := by
  unfold float_incr
  by_cases h24 : c = 2 ^ 24
  · rw [h24]
    decide!
  · have hlt : c + 1 ≤ 2 ^ 24 := by omega
    rw [Nat.min_eq_left hlt]
    have := round32_natCast (c + 1) hlt
    push_cast at this ⊢
    exact this

/-! ## Copy and OneHot: lemmas and claims -/

theorem foldl_OneHot_apply (depth : Nat) (on_value : Int) (x : Nat → ℚ) (l : List Nat)
    (y : Nat → ℚ) (idx : Nat) :
    (l.foldl
      (fun (y : Nat → ℚ) (p : Nat) => fun (idx : Nat) =>
        if (idx : Int) = (p : Int) * (depth : Int) + toInt (x p) then round32 (on_value : ℚ)
        else y idx) y) idx =
      if ∃ p, p ∈ l ∧ (idx : Int) = (p : Int) * (depth : Int) + toInt (x p)
      then round32 (on_value : ℚ) else y idx := by
  induction l generalizing y with
  | nil => simp
  | cons a l ih =>
    rw [List.foldl_cons, ih]
    by_cases h1 : ∃ p, p ∈ l ∧ (idx : Int) = (p : Int) * (depth : Int) + toInt (x p)
    · obtain ⟨p, hp, he⟩ := h1
      rw [if_pos ⟨p, hp, he⟩, if_pos ⟨p, List.mem_cons_of_mem a hp, he⟩]
    · rw [if_neg h1]
      by_cases h2 : (idx : Int) = (a : Int) * (depth : Int) + toInt (x a)
      · rw [if_pos h2, if_pos ⟨a, List.mem_cons_self a l, h2⟩]
      · rw [if_neg h2, if_neg]
        rintro ⟨p, hp, he⟩
        rcases List.mem_cons.mp hp with rfl | hp
        · exact h2 he
        · exact h1 ⟨p, hp, he⟩

theorem block_index_unique (d p c p' w : Nat) (hc : c < d) (hw : w < d)
    (h : p * d + c = p' * d + w) : p = p' ∧ c = w := by
  have hp : p = p' := by
    rcases Nat.lt_trichotomy p p' with hlt | heq | hgt
    · exfalso
      have h1 : (p + 1) * d ≤ p' * d := Nat.mul_le_mul_right d hlt
      rw [Nat.add_mul, Nat.one_mul] at h1
      omega
    · exact heq
    · exfalso
      have h1 : (p' + 1) * d ≤ p * d := Nat.mul_le_mul_right d hgt
      rw [Nat.add_mul, Nat.one_mul] at h1
      omega
  subst hp
  exact ⟨rfl, by omega⟩

/-- C8: for an input of element type float32 or float16 and any shape,
`CopyOp::RunOnDevice` succeeds, the output has the shape and the count of the
input, its element at every flat index below the count is the input's, and
exactly `count` elements are copied: the data past the count is left as it was. -/
theorem copy_output_equals_input (X Y : Tensor)
    (hty : X.type_meta = TypeMeta.float32 ∨ X.type_meta = TypeMeta.float16) :
    ∃ Y', CopyOp.RunOnDevice X Y = Except.ok Y' ∧ Y'.dims = X.dims ∧
      Y'.count = X.count ∧ (∀ i, i < X.count → Y'.data i = X.data i) ∧
      (∀ i, X.count ≤ i → Y'.data i = Y.data i) := by
  refine ⟨CopyOp.RunWithType X (Y.ReshapeLike X), ?_, rfl, rfl, ?_, ?_⟩
  · unfold CopyOp.RunOnDevice Tensor.IsType
    rcases hty with h | h
    · simp [h]
    · simp [h]
  · intro i hi
    have hi' : i < (Y.ReshapeLike X).count := hi
    simp [CopyOp.RunWithType, Context.Copy, hi']
  · intro i hi
    have hi' : ¬ i < (Y.ReshapeLike X).count := Nat.not_lt.mpr hi
    simp [CopyOp.RunWithType, Context.Copy, hi']
    rfl

/-- Witness of C8: a float32 input of shape `[2, 2]` copied into a buffer of
shape `[3]`. -/
theorem copy_output_equals_input_witness :
    ∃ Y', CopyOp.RunOnDevice copyX copyY = Except.ok Y' ∧ Y'.dims = copyX.dims ∧
      Y'.count = copyX.count ∧ (∀ i, i < copyX.count → Y'.data i = copyX.data i) ∧
      (∀ i, copyX.count ≤ i → Y'.data i = copyY.data i) :=
  copy_output_equals_input copyX copyY (Or.inl rfl)

/-- C9 as stated fails: with `off_value = 16777217`, `depth = 4` and input `[2]`
(in `[0, depth)`), the output at index 0 is 16777216, the float32 value of
`off_value`, and not `off_value`. -/
theorem onehot_values_unrepresentable :
    (∀ p, p < oneHotX1.count →
      0 ≤ toInt (oneHotX1.data p) ∧ toInt (oneHotX1.data p) < (bigOffOp.depth : Int)) ∧
    ¬ (∀ p, p < oneHotX1.count → ∀ c, c < bigOffOp.depth →
      (bigOffOp.RunWithType oneHotX1 (bigOffOp.reshapeOutput oneHotX1 copyY)).data
          (p * bigOffOp.depth + c) =
        if (c : Int) = toInt (oneHotX1.data p) then (bigOffOp.on_value : ℚ)
        else (bigOffOp.off_value : ℚ)) := by
  refine ⟨by decide!, ?_⟩
  intro h
  have h0 := h 0 (by decide) 0 (by decide)
  revert h0
  decide!

/-- C9, amended: for an input of count `n` whose elements all lie in
`[0, depth)`, after `OneHotOp::RunWithType` on the output as `RunOnDevice`
reshapes it, the output has `n * depth` elements and the element at
`p * depth + c` is the float32 value of `on_value` if `c` is the input element
at `p` and the float32 value of `off_value` otherwise; the float32 value of an
`int` of absolute value at most `2 ^ 24` is that `int`. -/
theorem onehot_values_float (op : OneHotOp) (X Y : Tensor)
    (hrange : ∀ p, p < X.count →
      0 ≤ toInt (X.data p) ∧ toInt (X.data p) < (op.depth : Int)) :
    (op.RunWithType X (op.reshapeOutput X Y)).count = X.count * op.depth ∧
    (∀ p, p < X.count → ∀ c, c < op.depth →
      (op.RunWithType X (op.reshapeOutput X Y)).data (p * op.depth + c) =
        if (c : Int) = toInt (X.data p) then round32 (op.on_value : ℚ)
        else round32 (op.off_value : ℚ)) ∧
    (op.on_value.natAbs ≤ 2 ^ 24 → round32 (op.on_value : ℚ) = op.on_value) ∧
    (op.off_value.natAbs ≤ 2 ^ 24 → round32 (op.off_value : ℚ) = op.off_value) := by
  have hcount : (op.reshapeOutput X Y).count = X.count * op.depth := by
    unfold OneHotOp.reshapeOutput Tensor.Reshape Tensor.count Tensor.countFrom
    simp
  refine ⟨hcount, ?_, round32_intCast _, round32_intCast _⟩
  intro p hp c hc
  unfold OneHotOp.RunWithType kernel.OneHot
  simp only
  rw [foldl_OneHot_apply]
  by_cases hv : (c : Int) = toInt (X.data p)
  · rw [if_pos hv, if_pos]
    refine ⟨p, List.mem_range.mpr hp, ?_⟩
    rw [← hv]
    push_cast
    rfl
  · rw [if_neg hv, if_neg]
    · unfold math.Set
      rw [if_pos]
      rw [hcount]
      calc p * op.depth + c < p * op.depth + op.depth := by omega
        _ = (p + 1) * op.depth := by rw [Nat.add_mul, Nat.one_mul]
        _ ≤ X.count * op.depth := Nat.mul_le_mul_right _ hp
    · rintro ⟨p', hp', he⟩
      have hp'' := List.mem_range.mp hp'
      obtain ⟨h0, h1⟩ := hrange p' hp''
      have hw : toInt (X.data p') = ((toInt (X.data p')).toNat : Int) := by omega
      rw [hw] at he
      have he' : p * op.depth + c = p' * op.depth + (toInt (X.data p')).toNat := by
        exact_mod_cast he
      obtain ⟨hpp, hcw⟩ := block_index_unique op.depth p c p' _ hc (by omega) he'
      subst hpp
      apply hv
      rw [hw, hcw]

/-- Witness of C9: `depth = 4`, `on_value = 1`, `off_value = 0`; input `[0, 3]`
gives `[[1, 0, 0, 0], [0, 0, 0, 1]]` and input `[2]` gives `[0, 0, 1, 0]`. -/
theorem onehot_values_float_witness :
    ((oneHotOp.RunWithType oneHotX2 (oneHotOp.reshapeOutput oneHotX2 copyY)).count =
        oneHotX2.count * oneHotOp.depth ∧
      (∀ p, p < oneHotX2.count → ∀ c, c < oneHotOp.depth →
        (oneHotOp.RunWithType oneHotX2 (oneHotOp.reshapeOutput oneHotX2 copyY)).data
            (p * oneHotOp.depth + c) =
          if (c : Int) = toInt (oneHotX2.data p) then round32 (oneHotOp.on_value : ℚ)
          else round32 (oneHotOp.off_value : ℚ)) ∧
      (oneHotOp.on_value.natAbs ≤ 2 ^ 24 →
        round32 (oneHotOp.on_value : ℚ) = oneHotOp.on_value) ∧
      (oneHotOp.off_value.natAbs ≤ 2 ^ 24 →
        round32 (oneHotOp.off_value : ℚ) = oneHotOp.off_value)) ∧
    (List.range 8).map
        (oneHotOp.RunWithType oneHotX2 (oneHotOp.reshapeOutput oneHotX2 copyY)).data =
      [1, 0, 0, 0, 0, 0, 0, 1] ∧
    (List.range 4).map
        (oneHotOp.RunWithType oneHotX1 (oneHotOp.reshapeOutput oneHotX1 copyY)).data =
      [0, 0, 1, 0] :=
  ⟨onehot_values_float oneHotOp oneHotX2 copyY (by decide!), by decide!, by decide!⟩

/-- C10: for every input shape `d` (the empty shape too) and every depth,
`OneHotOp::RunOnDevice` reshapes output 0 to `d` with `depth` appended: the rank
is `rank d + 1`, the leading dimensions are `d`, the count is `count d * depth`;
the typed kernel, when it runs, runs on that output and keeps its shape. -/
theorem onehot_shape (op : OneHotOp) (X Y : Tensor) :
    (op.reshapeOutput X Y).dims = X.dims ++ [op.depth] ∧
    (op.reshapeOutput X Y).dims.length = X.dims.length + 1 ∧
    (op.reshapeOutput X Y).dims.take X.dims.length = X.dims ∧
    (op.reshapeOutput X Y).count = X.count * op.depth ∧
    op.RunOnDevice X Y =
      (if X.IsType TypeMeta.float32 then Except.ok (op.RunWithType X (op.reshapeOutput X Y))
       else Except.error Fatal.unsupportedInputTypes) ∧
    (op.RunWithType X (op.reshapeOutput X Y)).dims = X.dims ++ [op.depth] := by
  refine ⟨rfl, ?_, ?_, ?_, rfl, rfl⟩
  · simp [OneHotOp.reshapeOutput, Tensor.Reshape]
  · simp [OneHotOp.reshapeOutput, Tensor.Reshape]
  · unfold OneHotOp.reshapeOutput Tensor.Reshape Tensor.count Tensor.countFrom
    simp

/-! ## Dispatch, shape inference and schemas: the claims -/

/-- C11: each `RunOnDevice` reaches its typed kernel exactly when the element
type of input 0 is supported, and otherwise ends in the fatal "unsupported input
types" error: Copy for float32 or float16, OneHot for float32, Accuracy (its
label-count check passing) for float32; an int32 input reaches no kernel. -/
theorem closed_type_dispatch (X Y L : Tensor) (oh : OneHotOp) (acc : AccuracyOp)
    (outputSize : Nat) (Y1 : Nat → ℚ) :
    (CopyOp.RunOnDevice X Y =
      if X.type_meta = TypeMeta.float32 ∨ X.type_meta = TypeMeta.float16 then
        Except.ok (CopyOp.RunWithType X (Y.ReshapeLike X))
      else Except.error Fatal.unsupportedInputTypes) ∧
    (oh.RunOnDevice X Y =
      if X.type_meta = TypeMeta.float32 then
        Except.ok (oh.RunWithType X (oh.reshapeOutput X Y))
      else Except.error Fatal.unsupportedInputTypes) ∧
    ((acc.inferShape X).outer_num * (acc.inferShape X).inner_num = L.count →
      ((∃ r, acc.RunOnDevice outputSize X L Y1 = Except.ok r ∧
          r.outputs = (acc.inferShape X).RunWithType outputSize X L Y1) ↔
        X.type_meta = TypeMeta.float32) ∧
      (X.type_meta ≠ TypeMeta.float32 →
        acc.RunOnDevice outputSize X L Y1 = Except.error Fatal.unsupportedInputTypes)) ∧
    (X.type_meta = TypeMeta.int32 →
      CopyOp.RunOnDevice X Y = Except.error Fatal.unsupportedInputTypes ∧
      oh.RunOnDevice X Y = Except.error Fatal.unsupportedInputTypes ∧
      ∀ r, acc.RunOnDevice outputSize X L Y1 ≠ Except.ok r) := by
  refine ⟨?_, ?_, ?_, ?_⟩
  · unfold CopyOp.RunOnDevice Tensor.IsType
    cases h : X.type_meta <;> simp
  · unfold OneHotOp.RunOnDevice Tensor.IsType
    cases h : X.type_meta <;> simp
  · intro hc
    unfold AccuracyOp.RunOnDevice Tensor.IsType
    simp only [hc, ne_eq, not_true_eq_false, if_false]
    cases h : X.type_meta <;> simp
  · intro h
    refine ⟨?_, ?_, ?_⟩
    · unfold CopyOp.RunOnDevice Tensor.IsType
      simp [h]
    · unfold OneHotOp.RunOnDevice Tensor.IsType
      simp [h]
    · intro r
      unfold AccuracyOp.RunOnDevice Tensor.IsType
      simp only [h]
      split <;> simp

/-- Witness of C11: an int32 input is refused by Copy, a float32 input whose
label count matches reaches the Accuracy kernel. -/
theorem closed_type_dispatch_witness :
    CopyOp.RunOnDevice int32X copyY = Except.error Fatal.unsupportedInputTypes ∧
    ∃ r, specOp.RunOnDevice 1 specX specL (fun _ => 0) = Except.ok r ∧
      r.outputs = (specOp.inferShape specX).RunWithType 1 specX specL (fun _ => 0) :=
  ⟨((closed_type_dispatch int32X copyY specL oneHotOp specOp 1 (fun _ => 0)).2.2.2 rfl).1,
    (((closed_type_dispatch specX copyY specL oneHotOp specOp 1 (fun _ => 0)).2.2.1
      (by decide)).1).mpr rfl⟩

/-- C12: `AccuracyOp::RunOnDevice` fails with the label-count error if and only
if `dim(0)` of the predictions times the product of their dimensions from axis
2 onward differs from the label count, whatever the element type; the error
carries `outer_num`, `inner_num` and the label count; the run then stops with
the shapes of the outputs as they were and without reaching the type dispatch. -/
theorem accuracy_label_count_fatal (op : AccuracyOp) (outputSize : Nat) (X L : Tensor)
    (Y1 : Nat → ℚ) :
    (X.dim 0 * X.countFrom 2 ≠ L.count ↔
      op.RunOnDevice outputSize X L Y1 =
        Except.error (Fatal.labelCount (X.dim 0) (X.countFrom 2) L.count)) ∧
    (X.dim 0 * X.countFrom 2 ≠ L.count ↔
      ∃ a b c, op.RunOnDevice outputSize X L Y1 = Except.error (Fatal.labelCount a b c)) ∧
    (X.dim 0 * X.countFrom 2 ≠ L.count →
      ∀ dims0 dims1, op.outputShapes outputSize X L dims0 dims1 = (dims0, dims1)) := by
  unfold AccuracyOp.RunOnDevice AccuracyOp.outputShapes AccuracyOp.inferShape
  simp only
  by_cases h : X.dim 0 * X.countFrom 2 = L.count
  · simp only [h, ne_eq, not_true_eq_false, if_false, false_iff]
    refine ⟨?_, ?_, ?_⟩
    · split <;> simp
    · rintro ⟨a, b, c, habc⟩
      revert habc
      split <;> simp
    · intro hf
      exact absurd hf id
  · simp only [ne_eq, h, not_false_eq_true, if_true, true_iff]
    exact ⟨trivial, ⟨_, _, _, rfl⟩, fun _ _ _ => trivial⟩

/-- Witness of C12: two examples and three labels, on float32 and on int32
predictions. -/
theorem accuracy_label_count_fatal_witness :
    specOp.RunOnDevice 2 specX threeLabels (fun _ => 0) =
      Except.error (Fatal.labelCount 2 1 3) ∧
    specOp.RunOnDevice 2 int32X threeLabels (fun _ => 0) =
      Except.error (Fatal.labelCount 2 1 3) ∧
    specOp.outputShapes 2 specX threeLabels [5] (some [7]) = ([5], some [7]) :=
  ⟨(accuracy_label_count_fatal specOp 2 specX threeLabels (fun _ => 0)).1.mp (by decide),
    (accuracy_label_count_fatal specOp 2 int32X threeLabels (fun _ => 0)).1.mp (by decide),
    (accuracy_label_count_fatal specOp 2 specX threeLabels (fun _ => 0)).2.2 (by decide)
      [5] (some [7])⟩

/-- C13: the schema of Copy accepts a node exactly when it has 1 input and 1
output, so a Copy node with 2 inputs is refused; the schema of OneHot accepts
exactly 1 input and 1 output; the schema of Accuracy accepts exactly 2 inputs
and 1 or 2 outputs. -/
theorem schema_arity (base : OpSchema) (nInputs nOutputs : Nat) :
    ((schemaCopy base).Verify nInputs nOutputs = true ↔ nInputs = 1 ∧ nOutputs = 1) ∧
    (schemaCopy base).Verify 2 nOutputs = false ∧
    ((schemaOneHot base).Verify nInputs nOutputs = true ↔ nInputs = 1 ∧ nOutputs = 1) ∧
    ((schemaAccuracy base).Verify nInputs nOutputs = true ↔
      nInputs = 2 ∧ (nOutputs = 1 ∨ nOutputs = 2)) := by
  unfold schemaCopy schemaOneHot schemaAccuracy OpSchema.Verify OpSchema.NumInputs
    OpSchema.NumOutputs OpSchema.NumOutputsMinMax
  simp only [decide_eq_true_eq, decide_eq_false_iff_not]
  refine ⟨?_, ?_, ?_, ?_⟩ <;> omega

/-- C15: for predictions of rank at least 2 that pass the label-count check,
`AccuracyOp::RunOnDevice` sets `outer_num = dim(0)`, `classes = dim(1)` and
`inner_num` to the product of the dimensions from axis 2 onward (1 for rank 2);
output 0 is reshaped to `[1]` and, iff there is a second output, output 1 to
`[classes]`, whatever the element type; the run on float32 predictions returns
with these shapes. -/
theorem accuracy_shape_inference (op : AccuracyOp) (outputSize : Nat) (X L : Tensor)
    (Y1 : Nat → ℚ) (hrank : 2 ≤ X.dims.length)
    (hcheck : X.dim 0 * X.countFrom 2 = L.count) :
    (∃ d0 d1 rest, X.dims = d0 :: d1 :: rest ∧
      (op.inferShape X).outer_num = d0 ∧ (op.inferShape X).classes = d1 ∧
      (op.inferShape X).inner_num = rest.prod) ∧
    (X.dims.length = 2 → (op.inferShape X).inner_num = 1) ∧
    (op.inferShape X).top_k = op.top_k ∧
    (op.inferShape X).ignore_labels = op.ignore_labels ∧
    (∀ dims0 dims1,
      (op.outputShapes outputSize X L dims0 dims1).1 = [1] ∧
      (outputSize > 1 →
        (op.outputShapes outputSize X L dims0 dims1).2 = some [(op.inferShape X).classes]) ∧
      (¬ outputSize > 1 → (op.outputShapes outputSize X L dims0 dims1).2 = dims1)) ∧
    (X.type_meta = TypeMeta.float32 →
      ∃ r, op.RunOnDevice outputSize X L Y1 = Except.ok r ∧
        r.op = op.inferShape X ∧ r.dims0 = [1] ∧
        (outputSize > 1 → r.dims1 = some [(op.inferShape X).classes]) ∧
        (¬ outputSize > 1 → r.dims1 = none)) := by
  have hc : (op.inferShape X).outer_num * (op.inferShape X).inner_num = L.count := hcheck
  refine ⟨?_, ?_, rfl, rfl, ?_, ?_⟩
  rotate_left 2
  · intro dims0 dims1
    unfold AccuracyOp.outputShapes
    simp only [hc, ne_eq, not_true_eq_false, if_false]
    refine ⟨rfl, ?_, ?_⟩
    · intro ho
      simp [ho]
    · intro ho
      simp [ho]
  rotate_left 1
  · match hd : X.dims, hrank with
    | d0 :: d1 :: rest, _ =>
      refine ⟨d0, d1, rest, rfl, ?_, ?_, ?_⟩
      · simp [AccuracyOp.inferShape, Tensor.dim, hd]
      · simp [AccuracyOp.inferShape, Tensor.dim, hd]
      · simp [AccuracyOp.inferShape, Tensor.countFrom, hd]
  · intro h2
    match hd : X.dims, h2 with
    | [d0, d1], _ => simp [AccuracyOp.inferShape, Tensor.countFrom, hd]
  · intro hty
    unfold AccuracyOp.RunOnDevice Tensor.IsType
    simp only [hc, ne_eq, not_true_eq_false, if_false, hty, decide_True, if_true]
    refine ⟨_, rfl, rfl, rfl, ?_, ?_⟩
    · intro ho
      simp [ho]
    · intro ho
      simp [ho]

/-- Witness of C15: the example of the specification, shape `[2, 3]`, two
labels, two outputs. -/
theorem accuracy_shape_inference_witness :
    ∃ r, specOp.RunOnDevice 2 specX specL (fun _ => 0) = Except.ok r ∧
      r.op = specOp.inferShape specX ∧ r.dims0 = [1] ∧
      (2 > 1 → r.dims1 = some [(specOp.inferShape specX).classes]) ∧
      (¬ 2 > 1 → r.dims1 = none) :=
  (accuracy_shape_inference specOp 2 specX specL (fun _ => 0) (by decide)
    (by decide)).2.2.2.2.2 rfl

/-! ## Accuracy: top-k selection, indexing, ranges -/

theorem rank_le_of_pairLt (vec : List (ℚ × Int)) (p q : ℚ × Int) (h : pairLt p q) :
    rank vec q ≤ rank vec p := by
  unfold rank
  apply List.countP_mono_left
  intro x _ hx
  rw [greater_iff] at hx ⊢
  exact pairLt_trans _ _ _ h hx

theorem scoreVec_length (op : AccuracyOp) (Xdata : Nat → ℚ) (dim i j : Nat) :
    (scoreVec op Xdata dim i j).length = op.classes := by
  simp [scoreVec]

theorem scoreVec_nodup (op : AccuracyOp) (Xdata : Nat → ℚ) (dim i j : Nat) :
    (scoreVec op Xdata dim i j).Nodup := by
  unfold scoreVec
  apply List.Nodup.map_on _ (List.nodup_range _)
  intro a _ b _ hab
  have h2 : ((a : Int)) = (b : Int) := congrArg Prod.snd hab
  exact_mod_cast h2

theorem sortGreater_strict (l : List (ℚ × Int)) (hnd : l.Nodup) :
    (sortGreater l).Pairwise (fun a b => pairLt b a) := by
  have hnd' : (sortGreater l).Nodup := (sortGreater_perm l).nodup_iff.mpr hnd
  have hd : (sortGreater l).Pairwise (fun a b => ¬ pairLt a b) := sortGreater_descending l
  refine (hd.and hnd').imp ?_
  intro a b hab
  rcases pairLt_total a b hab.2 with h | h
  · exact absurd h hab.1
  · exact h

/-- C14: at every position and for `top_k <= classes`, the first `top_k`
entries after the partial sort are `top_k` in number, in strictly descending
lexicographic order of `(score, class_index)`, and are exactly the entries with
fewer than `top_k` entries above them; every score among them is at least every
score not among them; of two classes with equal scores the one with the larger
index comes first and is selected whenever the other is; which classes are
selected is fixed by the scores alone. -/
theorem accuracy_topk_selection (op : AccuracyOp) (X : Tensor) (i j : Nat)
    (hk : op.top_k ≤ op.classes) :
    ((partial_sort (scoreVec op X.data (X.count / op.outer_num) i j) op.top_k).take
        op.top_k).length = op.top_k ∧
    ((partial_sort (scoreVec op X.data (X.count / op.outer_num) i j) op.top_k).take
        op.top_k).Pairwise (fun a b => pairLt b a) ∧
    ((partial_sort (scoreVec op X.data (X.count / op.outer_num) i j) op.top_k).take
        op.top_k).Pairwise (fun a b => b.1 ≤ a.1 ∧ (a.1 = b.1 → b.2 < a.2)) ∧
    (∀ p, p ∈ (partial_sort (scoreVec op X.data (X.count / op.outer_num) i j)
          op.top_k).take op.top_k ↔
        isTopK (scoreVec op X.data (X.count / op.outer_num) i j) op.top_k p) ∧
    (∀ p q, p ∈ (partial_sort (scoreVec op X.data (X.count / op.outer_num) i j)
          op.top_k).take op.top_k →
        q ∈ scoreVec op X.data (X.count / op.outer_num) i j →
        q ∉ (partial_sort (scoreVec op X.data (X.count / op.outer_num) i j)
          op.top_k).take op.top_k → q.1 ≤ p.1) ∧
    (∀ p q, p ∈ (partial_sort (scoreVec op X.data (X.count / op.outer_num) i j)
          op.top_k).take op.top_k →
        q ∈ scoreVec op X.data (X.count / op.outer_num) i j →
        q.1 = p.1 → p.2 < q.2 →
        q ∈ (partial_sort (scoreVec op X.data (X.count / op.outer_num) i j)
          op.top_k).take op.top_k) ∧
    (∀ c, c < op.classes →
      ((score op X i c j, (c : Int)) ∈
          (partial_sort (scoreVec op X.data (X.count / op.outer_num) i j)
            op.top_k).take op.top_k ↔
        (List.range op.classes).countP
          (fun k => decide (score op X i c j < score op X i k j ∨
            (score op X i c j = score op X i k j ∧ c < k))) < op.top_k)) := by
  have hmem : ∀ p, p ∈ (partial_sort (scoreVec op X.data (X.count / op.outer_num) i j)
          op.top_k).take op.top_k ↔
        isTopK (scoreVec op X.data (X.count / op.outer_num) i j) op.top_k p := by
    intro p
    rw [take_partial_sort, mem_take_sortGreater]
  have hstrict := (sortGreater_strict _
      (scoreVec_nodup op X.data (X.count / op.outer_num) i j)).sublist
      (List.take_sublist op.top_k _)
  refine ⟨?_, ?_, ?_, hmem, ?_, ?_, ?_⟩
  · rw [take_partial_sort, List.length_take, (sortGreater_perm _).length_eq,
      scoreVec_length]
    exact Nat.min_eq_left hk
  · rw [take_partial_sort]
    exact hstrict
  · rw [take_partial_sort]
    refine hstrict.imp ?_
    intro a b hab
    unfold pairLt at hab
    rcases hab with h | ⟨h1, h2⟩
    · exact ⟨le_of_lt h, fun he => absurd (he ▸ h) (lt_irrefl _)⟩
    · exact ⟨not_lt.mp h1, fun _ => h2⟩
  · intro p q hp hq hnq
    rw [hmem] at hp hnq
    by_contra hlt
    have hpq : pairLt p q := Or.inl (not_le.mp hlt)
    exact hnq ⟨hq, lt_of_le_of_lt (rank_le_of_pairLt _ p q hpq) hp.2⟩
  · intro p q hp hq he hlt
    rw [hmem] at hp ⊢
    have hpq : pairLt p q := Or.inr ⟨by rw [he]; exact lt_irrefl _, hlt⟩
    exact ⟨hq, lt_of_le_of_lt (rank_le_of_pairLt _ p q hpq) hp.2⟩
  · intro c hc
    rw [hmem]
    unfold isTopK
    rw [rank_scoreVec]
    have hin : (score op X i c j, (c : Int)) ∈
        scoreVec op X.data (X.count / op.outer_num) i j :=
      (mem_scoreVec op X i j _).mpr ⟨c, hc, rfl⟩
    have hcount : (List.range op.classes).countP
          (fun k => greater (score op X i k j, (k : Int)) (score op X i c j, (c : Int))) =
        (List.range op.classes).countP
          (fun k => decide (score op X i c j < score op X i k j ∨
            (score op X i c j = score op X i k j ∧ c < k))) := by
      apply List.countP_congr
      intro k _
      rw [greater_iff, decide_eq_true_iff]
      unfold pairLt
      simp only
      constructor
      · rintro (h | ⟨h1, h2⟩)
        · exact Or.inl h
        · rcases lt_or_eq_of_le (not_lt.mp h1) with h | h
          · exact Or.inl h
          · exact Or.inr ⟨h, by exact_mod_cast h2⟩
      · rintro (h | ⟨h1, h2⟩)
        · exact Or.inl h
        · exact Or.inr ⟨by rw [h1]; exact lt_irrefl _, by exact_mod_cast h2⟩
    rw [hcount]
    exact ⟨fun h => h.2, fun h => ⟨hin, h⟩⟩

/-- Witness of C14: the second example of the specification has the scores
`0.9, 0.05, 0.05`; with `top_k = 2` the selection is class 0, then class 2, the
larger index of the tie. -/
theorem accuracy_topk_selection_witness :
    ((partial_sort (scoreVec top2Op specX.data (specX.count / top2Op.outer_num) 1 0)
        top2Op.top_k).take top2Op.top_k).length = top2Op.top_k ∧
    (partial_sort (scoreVec top2Op specX.data (specX.count / top2Op.outer_num) 1 0)
        top2Op.top_k).take top2Op.top_k = [(9/10, 0), (1/20, 2)] :=
  ⟨(accuracy_topk_selection top2Op specX 1 0 (by decide)).1, by decide!⟩

theorem block_index_lt (d p c N : Nat) (hc : c < d) (hp : p < N) : p * d + c < N * d := by
  calc p * d + c < p * d + d := by omega
    _ = (p + 1) * d := by rw [Nat.add_mul, Nat.one_mul]
    _ ≤ N * d := Nat.mul_le_mul_right d hp

theorem predIndex_eq (op : AccuracyOp) (X : Tensor) (i k j : Nat)
    (hdim : X.count / op.outer_num = op.classes * op.inner_num) :
    predIndex op X i k j = (i * op.classes + k) * op.inner_num + j := by
  unfold predIndex
  rw [hdim, Nat.add_mul, Nat.mul_assoc]

/-- C16: with `outer_num > 0` and a prediction count of `outer_num * classes *
inner_num`, `dim = count / outer_num` is `classes * inner_num`; for `i <
outer_num`, `k < classes`, `j < inner_num` the index `i * dim + k * inner_num + j`
that line 52 reads is below the count, distinct triples give distinct indices,
and the label index `i * inner_num + j` is below `outer_num * inner_num`. -/
theorem accuracy_indexing (op : AccuracyOp) (X : Tensor) (hout : 0 < op.outer_num)
    (hcount : X.count = op.outer_num * op.classes * op.inner_num) :
    X.count / op.outer_num = op.classes * op.inner_num ∧
    (∀ i k j, i < op.outer_num → k < op.classes → j < op.inner_num →
      predIndex op X i k j < X.count ∧
      score op X i k j = X.data (predIndex op X i k j)) ∧
    (∀ i k j i' k' j', i < op.outer_num → k < op.classes → j < op.inner_num →
      i' < op.outer_num → k' < op.classes → j' < op.inner_num →
      predIndex op X i k j = predIndex op X i' k' j' → i = i' ∧ k = k' ∧ j = j') ∧
    (∀ i j, i < op.outer_num → j < op.inner_num →
      labelIndex op i j < op.outer_num * op.inner_num) := by
  have hdim : X.count / op.outer_num = op.classes * op.inner_num := by
    rw [hcount, Nat.mul_assoc]
    exact Nat.mul_div_cancel_left _ hout
  refine ⟨hdim, ?_, ?_, ?_⟩
  · intro i k j hi hk hj
    refine ⟨?_, rfl⟩
    rw [predIndex_eq op X i k j hdim, hcount]
    exact block_index_lt _ _ _ _ hj (block_index_lt _ _ _ _ hk hi)
  · intro i k j i' k' j' _ hk hj _ hk' hj' he
    rw [predIndex_eq op X i k j hdim, predIndex_eq op X i' k' j' hdim] at he
    obtain ⟨h1, h2⟩ := block_index_unique _ _ _ _ _ hj hj' he
    obtain ⟨h3, h4⟩ := block_index_unique _ _ _ _ _ hk hk' h1
    exact ⟨h3, h4, h2⟩
  · intro i j hi hj
    unfold labelIndex
    exact block_index_lt _ _ _ _ hj hi

/-- Witness of C16: the example of the specification, 6 predictions for 2
examples of 3 classes. -/
theorem accuracy_indexing_witness :
    specX.count / specOp.outer_num = specOp.classes * specOp.inner_num ∧
    predIndex specOp specX 1 2 0 < specX.count ∧
    labelIndex specOp 1 0 < specOp.outer_num * specOp.inner_num :=
  ⟨(accuracy_indexing specOp specX (by decide) (by decide)).1,
    ((accuracy_indexing specOp specX (by decide) (by decide)).2.1 1 2 0
      (by decide) (by decide) (by decide)).1,
    (accuracy_indexing specOp specX (by decide) (by decide)).2.2.2 1 0
      (by decide) (by decide)⟩

theorem countPositions_mono (op : AccuracyOp) (g1 g2 : Nat → Nat → Bool)
    (h : ∀ i, i < op.outer_num → ∀ j, j < op.inner_num → g1 i j = true → g2 i j = true) :
    countPositions op g1 ≤ countPositions op g2 := by
  unfold countPositions
  apply List.sum_le_sum
  intro i hi
  apply List.countP_mono_left
  intro j hj hg
  exact h i (List.mem_range.mp hi) j (List.mem_range.mp hj) hg

theorem countP_lt_length_of_mem {α : Type} (p : α → Bool) (l : List α) (x : α)
    (hx : x ∈ l) (hp : p x = false) : l.countP p < l.length := by
  induction l with
  | nil => cases hx
  | cons a l ih =>
    rw [List.countP_cons, List.length_cons]
    rcases List.mem_cons.mp hx with rfl | hx'
    · have := List.countP_le_length p (l := l)
      simp [hp]
      omega
    · have := ih hx'
      split <;> omega

theorem fdiv_self_pos (n : Nat) (h : 0 < n) : fdiv (n : ℚ) (n : ℚ) = some 1 := by
  rw [fdiv_pos _ _ h, div_self]
  exact_mod_cast Nat.pos_iff_ne_zero.mp h

/-- C18: with at least one position and `k1 <= k2 <= classes`, output 0 with
`top_k = k1` is at most output 0 with `top_k = k2`; with `top_k = classes` and
every label in `[0, classes)` output 0 is exactly 1; with `top_k = 0` it is
exactly 0. -/
theorem accuracy_monotone_in_top_k (op : AccuracyOp) (outputSize : Nat) (X L : Tensor)
    (Y1 : Nat → ℚ) (k1 k2 : Nat) (hpos : 0 < op.outer_num * op.inner_num)
    (h12 : k1 ≤ k2) (_h2 : k2 ≤ op.classes) :
    (∃ a b,
      (AccuracyOp.RunWithType { op with top_k := k1 } outputSize X L Y1).output0 = some a ∧
      (AccuracyOp.RunWithType { op with top_k := k2 } outputSize X L Y1).output0 = some b ∧
      a ≤ b) ∧
    ((∀ i, i < op.outer_num → ∀ j, j < op.inner_num →
        0 ≤ labelAt op L i j ∧ labelAt op L i j < (op.classes : Int)) →
      (AccuracyOp.RunWithType { op with top_k := op.classes } outputSize X L Y1).output0 =
        some 1) ∧
    (AccuracyOp.RunWithType { op with top_k := 0 } outputSize X L Y1).output0 = some 0 := by
  refine ⟨?_, ?_, ?_⟩
  · have ha := RunWithType_output0 { op with top_k := k1 } outputSize X L Y1
    have hb := RunWithType_output0 { op with top_k := k2 } outputSize X L Y1
    rw [fdiv_pos _ _ hpos] at ha hb
    refine ⟨_, _, ha, hb, ?_⟩
    apply div_le_div_of_nonneg_right _ (Nat.cast_nonneg _)
    apply Nat.cast_le.mpr
    apply countPositions_mono { op with top_k := k1 }
    intro i _ j _ h
    rw [labelInTopK_iff] at h ⊢
    obtain ⟨l, hl, hlab, hr⟩ := h
    exact ⟨l, hl, hlab, lt_of_lt_of_le hr h12⟩
  · intro hlab
    rw [RunWithType_output0]
    have hall : countPositions { op with top_k := op.classes }
        (labelInTopK { op with top_k := op.classes } X L) =
        op.outer_num * op.inner_num := by
      rw [← countPositions_all { op with top_k := op.classes }]
      apply countPositions_congr
      intro i hi j hj
      obtain ⟨h0, h1⟩ := hlab i hi j hj
      rw [labelInTopK_iff]
      refine ⟨(labelAt op L i j).toNat, ?_, ?_, ?_⟩
      · show (labelAt op L i j).toNat < op.classes
        omega
      · show labelAt op L i j = ((labelAt op L i j).toNat : Int)
        omega
      · have hl : (labelAt op L i j).toNat < op.classes := by omega
        have := countP_lt_length_of_mem
          (fun k => greater (score { op with top_k := op.classes } X i k j, (k : Int))
            (score { op with top_k := op.classes } X i (labelAt op L i j).toNat j,
              (((labelAt op L i j).toNat : Nat) : Int)))
          (List.range op.classes) (labelAt op L i j).toNat (List.mem_range.mpr hl)
          (by
            rw [Bool.eq_false_iff]
            intro hg
            exact pairLt_irrefl _ ((greater_iff _ _).mp hg))
        rw [List.length_range] at this
        exact this
    rw [hall]
    exact fdiv_self_pos _ hpos
  · rw [RunWithType_output0, fdiv_pos _ _ hpos]
    have hnone : countPositions { op with top_k := 0 }
        (labelInTopK { op with top_k := 0 } X L) = 0 := by
      refine (countPositions_congr _ _ (fun _ _ => false) ?_).trans (countPositions_none _)
      intro i _ j _
      rw [Bool.eq_false_iff]
      intro h
      obtain ⟨l, _, _, hr⟩ := (labelInTopK_iff _ X L i j).mp h
      exact Nat.not_lt_zero _ hr
    rw [hnone]
    simp

/-- Witness of C18: the example of the specification with `top_k` 1, 2, 3 and 0. -/
theorem accuracy_monotone_in_top_k_witness :
    (∃ a b,
      (AccuracyOp.RunWithType { specOp with top_k := 1 } 1 specX specL
        (fun _ => 0)).output0 = some a ∧
      (AccuracyOp.RunWithType { specOp with top_k := 2 } 1 specX specL
        (fun _ => 0)).output0 = some b ∧ a ≤ b) ∧
    (AccuracyOp.RunWithType { specOp with top_k := specOp.classes } 1 specX specL
      (fun _ => 0)).output0 = some 1 ∧
    (AccuracyOp.RunWithType { specOp with top_k := 0 } 1 specX specL
      (fun _ => 0)).output0 = some 0 :=
  ⟨(accuracy_monotone_in_top_k specOp 1 specX specL (fun _ => 0) 1 2 (by decide)
      (by decide) (by decide)).1,
    (accuracy_monotone_in_top_k specOp 1 specX specL (fun _ => 0) 1 2 (by decide)
      (by decide) (by decide)).2.1 (by decide!),
    (accuracy_monotone_in_top_k specOp 1 specX specL (fun _ => 0) 1 2 (by decide)
      (by decide) (by decide)).2.2⟩

/-- C19: with at least one position and `top_k <= classes`, each position adds
0 or 1 to the correct-count and exactly 1 to the total-count, the correct-count
is at most the total-count after the loops, and output 0 lies between 0 and 1. -/
theorem accuracy_range (op : AccuracyOp) (outputSize : Nat) (X L : Tensor)
    (Y1 : Nat → ℚ) (hpos : 0 < op.outer_num * op.inner_num)
    (_hk : op.top_k ≤ op.classes) :
    (∀ (Xdata labels : Nat → ℚ) (dim i j : Nat) (st : AccState),
      ((position op outputSize Xdata labels dim i j st).acc = st.acc ∨
        (position op outputSize Xdata labels dim i j st).acc = st.acc + 1) ∧
      (position op outputSize Xdata labels dim i j st).count = st.count + 1) ∧
    (loops op outputSize X L Y1).acc ≤ (loops op outputSize X L Y1).count ∧
    ∃ a, (op.RunWithType outputSize X L Y1).output0 = some a ∧ 0 ≤ a ∧ a ≤ 1 := by
  refine ⟨?_, ?_, ?_⟩
  · intro Xdata labels dim i j st
    rw [position_eq]
    simp only
    refine ⟨?_, trivial⟩
    by_cases hh : hit op Xdata labels dim i j = true
    · right
      rw [if_pos hh]
    · left
      rw [if_neg hh, add_zero]
  · rw [loops_acc, loops_count]
    exact Nat.cast_le.mpr (countPositions_le op _)
  · have ha := RunWithType_output0 op outputSize X L Y1
    rw [fdiv_pos _ _ hpos] at ha
    refine ⟨_, ha, ?_, ?_⟩
    · exact div_nonneg (Nat.cast_nonneg _) (Nat.cast_nonneg _)
    · apply div_le_one_of_le₀
      · exact Nat.cast_le.mpr (countPositions_le op _)
      · exact Nat.cast_nonneg _

/-- Witness of C19: the example of the specification. -/
theorem accuracy_range_witness :
    (loops specOp 1 specX specL (fun _ => 0)).acc ≤
      (loops specOp 1 specX specL (fun _ => 0)).count ∧
    ∃ a, (specOp.RunWithType 1 specX specL (fun _ => 0)).output0 = some a ∧ 0 ≤ a ∧ a ≤ 1 :=
  (accuracy_range specOp 1 specX specL (fun _ => 0) (by decide) (by decide)).2

theorem position_ignore_labels (op : AccuracyOp) (A B : List Int) (outputSize : Nat)
    (Xdata labels : Nat → ℚ) (dim i j : Nat) (st : AccState) :
    position { op with ignore_labels := A } outputSize Xdata labels dim i j st =
      position { op with ignore_labels := B } outputSize Xdata labels dim i j st := by
  unfold position
  simp only [ignoreLoop_eq]
  rfl

theorem loops_ignore_labels (op : AccuracyOp) (A B : List Int) (outputSize : Nat)
    (X L : Tensor) (Y1 : Nat → ℚ) :
    loops { op with ignore_labels := A } outputSize X L Y1 =
      loops { op with ignore_labels := B } outputSize X L Y1 := by
  unfold loops innerLoop
  simp only [position_ignore_labels op A B]

/-! ## Accuracy with `T = float`: lemmas -/

theorem topkLoop_float_eq (label : Int) (outputSize : Nat) (l : List (ℚ × Int))
    (st : AccState) :
    topkLoop_float label outputSize l st =
      if l.any (fun p => decide (p.2 = label)) then
        { st with
          acc_per_class :=
            if outputSize > 1 then dataIncr_float st.acc_per_class label
            else st.acc_per_class
          acc := float_incr st.acc }
      else st := by
  induction l with
  | nil => simp [topkLoop_float]
  | cons p l ih =>
    unfold topkLoop_float
    by_cases hp : p.2 = label
    · simp [hp]
    · rw [if_neg hp, ih, List.any_cons, decide_eq_false hp, Bool.false_or]

theorem position_float_eq (op : AccuracyOp) (outputSize : Nat) (Xdata labels : Nat → ℚ)
    (dim i j : Nat) (st : AccState) :
    position_float op outputSize Xdata labels dim i j st =
      { acc := if hit op Xdata labels dim i j then float_incr st.acc else st.acc
        count := float_incr st.count
        num_per_class :=
          if outputSize > 1 then
            mapIncr st.num_per_class (toInt (labels (i * op.inner_num + j)))
          else st.num_per_class
        acc_per_class :=
          if outputSize > 1 ∧ hit op Xdata labels dim i j = true then
            dataIncr_float st.acc_per_class (toInt (labels (i * op.inner_num + j)))
          else st.acc_per_class } := by
  unfold position_float
  simp only [ignoreLoop_eq, topkLoop_float_eq]
  by_cases hh : hit op Xdata labels dim i j = true
  · have hh' := hh
    unfold hit at hh'
    by_cases ho : outputSize > 1
    · simp [hh, hh', ho]
    · simp [hh, hh', ho]
  · have hh' := hh
    unfold hit at hh'
    by_cases ho : outputSize > 1
    · simp [hh, hh', ho]
    · simp [hh, hh', ho]

theorem foldl_count_float {σ : Type} (f : Nat → σ → σ) (m : σ → ℚ) (good : Nat → Bool)
    (h : ∀ j s, m (f j s) = if good j then float_incr (m s) else m s)
    (l : List Nat) (s : σ) (c : Nat) (hc : c ≤ 2 ^ 24) (hm : m s = (c : ℚ)) :
    m (l.foldl (fun s j => f j s) s) = ((min (c + l.countP good) (2 ^ 24) : Nat) : ℚ) := by
  induction l generalizing s c with
  | nil =>
    rw [List.foldl_nil, List.countP_nil, Nat.add_zero, Nat.min_eq_left hc]
    exact hm
  | cons a l ih =>
    rw [List.foldl_cons, List.countP_cons]
    by_cases hg : good a = true
    · have h1 : m (f a s) = ((min (c + 1) (2 ^ 24) : Nat) : ℚ) := by
        rw [h, if_pos hg, hm, float_incr_natCast c hc]
      rw [ih (f a s) (min (c + 1) (2 ^ 24)) (Nat.min_le_right _ _) h1, if_pos hg]
      congr 1
      omega
    · have h1 : m (f a s) = (c : ℚ) := by
        rw [h, if_neg hg, hm]
      rw [ih (f a s) c hc h1, if_neg hg]
      congr 1

theorem foldl_sum_float {σ : Type} (F : Nat → σ → σ) (m : σ → ℚ) (g : Nat → Nat)
    (h : ∀ (i : Nat) (s : σ) (c : Nat), c ≤ 2 ^ 24 → m s = (c : ℚ) →
      m (F i s) = ((min (c + g i) (2 ^ 24) : Nat) : ℚ))
    (l : List Nat) (s : σ) (c : Nat) (hc : c ≤ 2 ^ 24) (hm : m s = (c : ℚ)) :
    m (l.foldl (fun s i => F i s) s) = ((min (c + (l.map g).sum) (2 ^ 24) : Nat) : ℚ) := by
  induction l generalizing s c with
  | nil =>
    rw [List.foldl_nil, List.map_nil, List.sum_nil, Nat.add_zero, Nat.min_eq_left hc]
    exact hm
  | cons a l ih =>
    rw [List.foldl_cons, List.map_cons, List.sum_cons,
      ih (F a s) (min (c + g a) (2 ^ 24)) (Nat.min_le_right _ _) (h a s c hc hm)]
    congr 1
    omega

/-- The two nested loops bring a float counter that starts at 0 to the number
of positions at which the body increments it, or to `2 ^ 24` if that is less. -/
theorem nested_count_float (op : AccuracyOp) (f : Nat → Nat → AccState → AccState)
    (m : AccState → ℚ) (good : Nat → Nat → Bool)
    (h : ∀ i j s, m (f i j s) = if good i j then float_incr (m s) else m s)
    (s : AccState) (hm : m s = 0) :
    m ((List.range op.outer_num).foldl
        (fun s i => (List.range op.inner_num).foldl (fun s j => f i j s) s) s) =
      ((min (countPositions op good) (2 ^ 24) : Nat) : ℚ) := by
  have := foldl_sum_float
    (fun i s => (List.range op.inner_num).foldl (fun s j => f i j s) s) m
    (fun i => (List.range op.inner_num).countP (fun j => good i j))
    (fun i s c hc hmc => foldl_count_float (f i) m (good i) (h i) _ s c hc hmc)
    (List.range op.outer_num) s 0 (Nat.zero_le _) (by simpa using hm)
  rw [this]
  unfold countPositions
  simp

theorem loops_float_acc (op : AccuracyOp) (outputSize : Nat) (X L : Tensor)
    (Y1 : Nat → ℚ) :
    (loops_float op outputSize X L Y1).acc =
      ((min (countPositions op (labelInTopK op X L)) (2 ^ 24) : Nat) : ℚ) := by
  unfold loops_float innerLoop_float
  simp only
  rw [nested_count_float op
    (fun i j s => position_float op outputSize X.data L.data _ i j s)
    (fun s => s.acc) (hit op X.data L.data (X.count / op.outer_num))
    (fun i j s => by beta_reduce; rw [position_float_eq]) _ rfl]
  have h : hit op X.data L.data (X.count / op.outer_num) = labelInTopK op X L := by
    funext i j
    exact hit_eq_labelInTopK op X L i j
  rw [h]

theorem loops_float_count (op : AccuracyOp) (outputSize : Nat) (X L : Tensor)
    (Y1 : Nat → ℚ) :
    (loops_float op outputSize X L Y1).count =
      ((min (op.outer_num * op.inner_num) (2 ^ 24) : Nat) : ℚ) := by
  unfold loops_float innerLoop_float
  simp only
  rw [nested_count_float op
    (fun i j s => position_float op outputSize X.data L.data _ i j s)
    (fun s => s.count) (fun _ _ => true)
    (fun i j s => by beta_reduce; rw [position_float_eq]; simp) _ rfl,
    countPositions_all]

theorem float_div_pos (a : ℚ) (n : Nat) (h : 0 < n) :
    float_div a (n : ℚ) = some (round32 (a / (n : ℚ))) := by
  unfold float_div
  rw [if_neg]
  exact_mod_cast Nat.pos_iff_ne_zero.mp h

/-- Below `2 ^ 24` positions the run with `T = float` returns, and output 0 is
the float32 value of the number of positions whose label is among the `top_k`
classes over the number of positions. -/
theorem RunWithType_float_output0 (op : AccuracyOp) (outputSize : Nat) (X L : Tensor)
    (Y1 : Nat → ℚ) (hpos : 0 < op.outer_num * op.inner_num)
    (hn : op.outer_num * op.inner_num ≤ 2 ^ 24) (hk : op.top_k ≤ op.classes) :
    ∃ r, op.RunWithType_float outputSize X L Y1 = some r ∧
      r.output0 = some (round32 ((countPositions op (labelInTopK op X L) : ℚ) /
        ((op.outer_num * op.inner_num : Nat) : ℚ))) := by
  have ho : op.outer_num ≠ 0 := by
    intro h
    rw [h, Nat.zero_mul] at hpos
    exact Nat.lt_irrefl 0 hpos
  unfold AccuracyOp.RunWithType_float
  rw [if_neg ho, if_neg (fun h => Nat.lt_irrefl _ (Nat.lt_of_lt_of_le h.1 hk))]
  refine ⟨_, rfl, ?_⟩
  simp only
  rw [loops_float_acc, loops_float_count, Nat.min_eq_left hn,
    Nat.min_eq_left (le_trans (countPositions_le op _) hn), float_div_pos _ _ hpos]

theorem position_float_ignore_labels (op : AccuracyOp) (A B : List Int) (outputSize : Nat)
    (Xdata labels : Nat → ℚ) (dim i j : Nat) (st : AccState) :
    position_float { op with ignore_labels := A } outputSize Xdata labels dim i j st =
      position_float { op with ignore_labels := B } outputSize Xdata labels dim i j st := by
  unfold position_float
  simp only [ignoreLoop_eq]
  rfl

theorem loops_float_ignore_labels (op : AccuracyOp) (A B : List Int) (outputSize : Nat)
    (X L : Tensor) (Y1 : Nat → ℚ) :
    loops_float { op with ignore_labels := A } outputSize X L Y1 =
      loops_float { op with ignore_labels := B } outputSize X L Y1 := by
  unfold loops_float innerLoop_float
  simp only [position_float_ignore_labels op A B]

/-! ## Accuracy with `T = float`: the claims -/

/-- C3 as stated fails: three positions, one of them with its label among the
top 1; the claim's hypotheses hold and output 0 is 11184811/33554432, the
float32 value of 1/3, not 1/3. -/
theorem accuracy_overall_value_rounds :
    thirdOp.ignore_labels = [] ∧ 0 < thirdOp.outer_num * thirdOp.inner_num ∧
    1 ≤ thirdOp.top_k ∧ thirdOp.top_k ≤ thirdOp.classes ∧
    countPositions thirdOp (labelInTopK thirdOp thirdX thirdL) = 1 ∧
    Option.map AccuracyOutputs.output0
        (thirdOp.RunWithType_float 1 thirdX thirdL (fun _ => 0)) =
      some (some (11184811 / 33554432)) ∧
    Option.map AccuracyOutputs.output0
        (thirdOp.RunWithType_float 1 thirdX thirdL (fun _ => 0)) ≠
      some (some ((countPositions thirdOp (labelInTopK thirdOp thirdX thirdL) : ℚ) /
        ((thirdOp.outer_num * thirdOp.inner_num : Nat) : ℚ))) := by
  decide!

/-- C3, amended: with empty `ignore_labels`, at least one and at most `2 ^ 24`
positions and `1 <= top_k <= classes`, the run returns and output 0 is the
float32 value nearest to the number of positions whose label is the class index
of one of the `top_k` greatest pairs `(predictions[i * dim + k * inner_num + j],
k)`, divided by `outer_num * inner_num`; the correct-count is that number of
positions and the total-count is `outer_num * inner_num`, so a position counts
at most once. -/
theorem accuracy_overall_value_float (op : AccuracyOp) (outputSize : Nat) (X L : Tensor)
    (Y1 : Nat → ℚ) (_hign : op.ignore_labels = [])
    (hpos : 0 < op.outer_num * op.inner_num)
    (hn : op.outer_num * op.inner_num ≤ 2 ^ 24)
    (_hk1 : 1 ≤ op.top_k) (hk2 : op.top_k ≤ op.classes) :
    (∃ r, op.RunWithType_float outputSize X L Y1 = some r ∧
      r.output0 = some (round32 ((countPositions op (labelInTopK op X L) : ℚ) /
        ((op.outer_num * op.inner_num : Nat) : ℚ)))) ∧
    (loops_float op outputSize X L Y1).acc =
      (countPositions op (labelInTopK op X L) : ℚ) ∧
    (loops_float op outputSize X L Y1).count =
      ((op.outer_num * op.inner_num : Nat) : ℚ) ∧
    countPositions op (labelInTopK op X L) ≤ op.outer_num * op.inner_num := by
  refine ⟨RunWithType_float_output0 op outputSize X L Y1 hpos hn hk2, ?_, ?_,
    countPositions_le op _⟩
  · rw [loops_float_acc, Nat.min_eq_left (le_trans (countPositions_le op _) hn)]
  · rw [loops_float_count, Nat.min_eq_left hn]

/-- Witness of C3: the example of the specification, both labels among the top
1, output 0 exactly 1. -/
theorem accuracy_overall_value_float_witness :
    (∃ r, specOp.RunWithType_float 1 specX specL (fun _ => 0) = some r ∧
      r.output0 = some (round32
        ((countPositions specOp (labelInTopK specOp specX specL) : ℚ) /
          ((specOp.outer_num * specOp.inner_num : Nat) : ℚ)))) ∧
    Option.map AccuracyOutputs.output0
        (specOp.RunWithType_float 1 specX specL (fun _ => 0)) = some (some 1) :=
  ⟨(accuracy_overall_value_float specOp 1 specX specL (fun _ => 0) rfl (by decide)
    (by decide) (by decide) (by decide)).1, by decide!⟩

/-- C4 as stated fails: three positions with distinct scores, `top_k = 1`, one
label equal to the class with the maximum score; output 0 is the float32 value
of 1/3 and not the fraction 1/3. -/
theorem accuracy_top1_rounds :
    thirdOp.top_k = 1 ∧ 1 ≤ thirdOp.classes ∧
    0 < thirdOp.outer_num * thirdOp.inner_num ∧
    (∀ i, i < thirdOp.outer_num → ∀ j, j < thirdOp.inner_num →
      ∀ a, a < thirdOp.classes → ∀ b, b < thirdOp.classes → a ≠ b →
        score thirdOp thirdX i a j ≠ score thirdOp thirdX i b j) ∧
    (∀ i, i < thirdOp.outer_num → ∀ j, j < thirdOp.inner_num →
      ∀ k, k < thirdOp.classes → score thirdOp thirdX i k j ≤ score thirdOp thirdX i 0 j) ∧
    Option.map AccuracyOutputs.output0
        (thirdOp.RunWithType_float 1 thirdX thirdL (fun _ => 0)) ≠
      some (some ((countPositions thirdOp
          (fun i j => decide (labelAt thirdOp thirdL i j = ((0 : Nat) : Int))) : ℚ) /
        ((thirdOp.outer_num * thirdOp.inner_num : Nat) : ℚ))) := by
  decide!

/-- C4, amended: with `top_k = 1`, at least one class, at least one and at most
`2 ^ 24` positions and pairwise distinct scores at each position, the run
returns and output 0 is the float32 value nearest to the number of positions
whose label is the class with the maximum score there, divided by the number of
positions; on the example of the specification, predictions `[[0.1, 0.7, 0.2],
[0.9, 0.05, 0.05]]` with labels `[1, 0]`, output 0 is exactly 1. -/
theorem accuracy_top1_is_argmax_float :
    (∀ (op : AccuracyOp) (outputSize : Nat) (X L : Tensor) (Y1 : Nat → ℚ)
      (argmax : Nat → Nat → Nat),
      op.top_k = 1 → 1 ≤ op.classes → 0 < op.outer_num * op.inner_num →
      op.outer_num * op.inner_num ≤ 2 ^ 24 →
      (∀ i, i < op.outer_num → ∀ j, j < op.inner_num →
        ∀ a, a < op.classes → ∀ b, b < op.classes → a ≠ b →
          score op X i a j ≠ score op X i b j) →
      (∀ i, i < op.outer_num → ∀ j, j < op.inner_num →
        argmax i j < op.classes ∧
          ∀ k, k < op.classes → score op X i k j ≤ score op X i (argmax i j) j) →
      ∃ r, op.RunWithType_float outputSize X L Y1 = some r ∧
        r.output0 = some (round32 ((countPositions op
            (fun i j => decide (labelAt op L i j = (argmax i j : Int))) : ℚ) /
          ((op.outer_num * op.inner_num : Nat) : ℚ)))) ∧
    Option.map AccuracyOutputs.output0
        (specOp.RunWithType_float 1 specX specL (fun _ => 0)) = some (some 1) := by
  refine ⟨?_, by decide!⟩
  intro op outputSize X L Y1 argmax hk hc hpos hn hdist hmax
  have h := RunWithType_float_output0 op outputSize X L Y1 hpos hn (by omega)
  rw [countPositions_congr op (labelInTopK op X L)
    (fun i j => decide (labelAt op L i j = (argmax i j : Int)))
    (fun i hi j hj => labelInTopK_top1 op X L argmax i j hk (hdist i hi j hj)
      (hmax i hi j hj).1 (hmax i hi j hj).2)] at h
  exact h

/-- Witness of C4: two examples over three classes with distinct scores, the
first labelled with its best class and the second not, output 0 exactly 1/2. -/
theorem accuracy_top1_is_argmax_float_witness :
    (∃ r, top1Op.RunWithType_float 1 relabelX relabelL (fun _ => 0) = some r ∧
      r.output0 = some (round32 ((countPositions top1Op
          (fun i j => decide (labelAt top1Op relabelL i j = (specArgmax i j : Int))) : ℚ) /
        ((top1Op.outer_num * top1Op.inner_num : Nat) : ℚ)))) ∧
    Option.map AccuracyOutputs.output0
        (top1Op.RunWithType_float 1 relabelX relabelL (fun _ => 0)) = some (some (1 / 2)) :=
  ⟨accuracy_top1_is_argmax_float.1 top1Op 1 relabelX relabelL (fun _ => 0) specArgmax rfl
    (by decide) (by decide) (by decide) (by decide!) (by decide!), by decide!⟩

/-- C20 as stated fails: with `2 ^ 24 + 1` positions the total-count, a float,
stops at `2 ^ 24 = 16777216` and is not `outer_num * inner_num`. -/
theorem accuracy_count_saturates :
    bigOp.outer_num * bigOp.inner_num = 16777217 ∧
    (loops_float bigOp 1 bigX bigL (fun _ => 0)).count = 16777216 ∧
    (loops_float bigOp 1 bigX bigL (fun _ => 0)).count ≠
      ((bigOp.outer_num * bigOp.inner_num : Nat) : ℚ) := by
  have hc : (loops_float bigOp 1 bigX bigL (fun _ => 0)).count = 16777216 := by
    rw [loops_float_count]
    decide!
  refine ⟨by decide, hc, ?_⟩
  rw [hc]
  decide!

/-- C20, amended: for every two `ignore_labels` sets `A` and `B`, the runs of
`RunWithType` on the same predictions, labels and `top_k` are undefined
together or give the same output 0 and the same output 1; they return when
`outer_num > 0` and `top_k <= classes`; the total-count is the lesser of
`outer_num * inner_num` and `2 ^ 24` in both, which is `outer_num * inner_num`
up to `2 ^ 24` positions. -/
theorem accuracy_same_for_all_ignore_labels_float (op : AccuracyOp) (A B : List Int)
    (outputSize : Nat) (X L : Tensor) (Y1 : Nat → ℚ) :
    AccuracyOp.RunWithType_float { op with ignore_labels := A } outputSize X L Y1 =
      AccuracyOp.RunWithType_float { op with ignore_labels := B } outputSize X L Y1 ∧
    (0 < op.outer_num → op.top_k ≤ op.classes →
      ∃ r, AccuracyOp.RunWithType_float { op with ignore_labels := A } outputSize X L Y1 =
          some r ∧
        AccuracyOp.RunWithType_float { op with ignore_labels := B } outputSize X L Y1 =
          some r) ∧
    (loops_float { op with ignore_labels := A } outputSize X L Y1).count =
      ((min (op.outer_num * op.inner_num) (2 ^ 24) : Nat) : ℚ) ∧
    (loops_float { op with ignore_labels := B } outputSize X L Y1).count =
      ((min (op.outer_num * op.inner_num) (2 ^ 24) : Nat) : ℚ) ∧
    (op.outer_num * op.inner_num ≤ 2 ^ 24 →
      (loops_float { op with ignore_labels := A } outputSize X L Y1).count =
        ((op.outer_num * op.inner_num : Nat) : ℚ) ∧
      (loops_float { op with ignore_labels := B } outputSize X L Y1).count =
        ((op.outer_num * op.inner_num : Nat) : ℚ)) := by
  have heq : AccuracyOp.RunWithType_float { op with ignore_labels := A } outputSize X L Y1 =
      AccuracyOp.RunWithType_float { op with ignore_labels := B } outputSize X L Y1 := by
    unfold AccuracyOp.RunWithType_float
    simp only [loops_float_ignore_labels op A B]
  refine ⟨heq, ?_, loops_float_count _ _ _ _ _, loops_float_count _ _ _ _ _, ?_⟩
  · intro ho hk
    rw [← heq]
    unfold AccuracyOp.RunWithType_float
    rw [if_neg (Nat.pos_iff_ne_zero.mp ho),
      if_neg (fun h => Nat.lt_irrefl _ (Nat.lt_of_lt_of_le h.1 hk))]
    exact ⟨_, rfl, rfl⟩
  · intro hn
    rw [loops_float_count, loops_float_count]
    simp only
    rw [Nat.min_eq_left hn]
    exact ⟨rfl, rfl⟩

/-- Witness of C20: the example of the specification with `ignore_labels` `[1]`
and `[]`. -/
theorem accuracy_same_for_all_ignore_labels_float_witness :
    (∃ r, AccuracyOp.RunWithType_float { specOp with ignore_labels := [1] } 2 specX specL
          (fun _ => 0) = some r ∧
        AccuracyOp.RunWithType_float { specOp with ignore_labels := [] } 2 specX specL
          (fun _ => 0) = some r) ∧
    (loops_float { specOp with ignore_labels := [1] } 2 specX specL (fun _ => 0)).count =
      ((specOp.outer_num * specOp.inner_num : Nat) : ℚ) :=
  ⟨(accuracy_same_for_all_ignore_labels_float specOp [1] [] 2 specX specL (fun _ => 0)).2.1
      (by decide) (by decide),
    ((accuracy_same_for_all_ignore_labels_float specOp [1] [] 2 specX specL
      (fun _ => 0)).2.2.2.2 (by decide)).1⟩

end dragon
